import Mathlib

/-!
# Verification of the `epublet` streaming ZIP reader and render-engine contracts

Shallow embedding of `src/zip.rs` (streaming ZIP reader: EOCD discovery,
ZIP64 handling, central-directory parsing, stored/DEFLATE entry reads,
mimetype validation) together with a spec-modelled render-engine pagination
contract. Files are modelled as `List Nat` of byte values (each `< 256` in
well-formed inputs); machine-integer reads are little-endian folds over such
lists. Rust `u16`/`u32`/`u64` arithmetic in the translated code never
overflows on the values that reach it (sums of 64-bit reads stay far below
`Nat` limits), so plain `Nat` is used. The external raw-DEFLATE inflater
(`miniz_oxide`) is modelled as an abstract streaming decompressor
(`InflateModel`): cumulative output is a monotone function of cumulative
consumed input and the stream ends at a fixed consumed position; the loops
driving it are translated from the source verbatim.
-/

set_option maxHeartbeats 1000000

deriving instance DecidableEq for Except

/-- Little-endian value of a byte list (least significant byte first). -/
def fromLe : List Nat → Nat
  | [] => 0
  | b :: bs => b + 256 * fromLe bs

/-- Read a little-endian `u16` at `offset` (source: `read_u16_le`). -/
def readU16 (buf : List Nat) (offset : Nat) : Nat :=
  fromLe ((buf.drop offset).take 2)

/-- Read a little-endian `u32` at `offset` (source: `read_u32_le`). -/
def readU32 (buf : List Nat) (offset : Nat) : Nat :=
  fromLe ((buf.drop offset).take 4)

/-- Read a little-endian `u64` at `offset`. -/
def readU64 (buf : List Nat) (offset : Nat) : Nat :=
  fromLe ((buf.drop offset).take 8)

/-- Little-endian encoding of a `u16`. -/
def u16le (n : Nat) : List Nat := [n % 256, n / 256 % 256]

/-- Little-endian encoding of a `u32`. -/
def u32le (n : Nat) : List Nat :=
  [n % 256, n / 256 % 256, n / 65536 % 256, n / 16777216 % 256]

/-- Little-endian encoding of a `u64`. -/
def u64le (n : Nat) : List Nat :=
  [n % 256, n / 256 % 256, n / 65536 % 256, n / 16777216 % 256,
   n / 4294967296 % 256, n / 1099511627776 % 256,
   n / 281474976710656 % 256, n / 72057594037927936 % 256]

/-- One byte step of the reflected CRC-32 (polynomial `0xEDB88320`),
the checksum computed by `crc32fast::hash`. -/
def crc32Byte (c b : Nat) : Nat :=
  let step := fun (x : Nat) =>
    if x % 2 = 1 then (x / 2) ^^^ 0xEDB88320 else x / 2
  step (step (step (step (step (step (step (step (c ^^^ b % 256))))))))

/-- CRC-32 of a byte list, as computed by `crc32fast::hash` /
an incrementally updated `crc32fast::Hasher`. -/
def crc32Hash (bs : List Nat) : Nat :=
  (bs.foldl crc32Byte 0xFFFFFFFF) ^^^ 0xFFFFFFFF

/-- Greatest `k ≤ n` with `p k = true`, defaulting to `0`. -/
def maxConsume (p : Nat → Bool) : Nat → Nat
  | 0 => 0
  | n + 1 => if p (n + 1) then n + 1 else maxConsume p n

theorem maxConsume_le (p : Nat → Bool) (n : Nat) : maxConsume p n ≤ n := by
  induction n with
  | zero => simp [maxConsume]
  | succ n ih =>
    simp only [maxConsume]
    split
    · exact Nat.le_refl _
    · exact Nat.le_succ_of_le ih

theorem maxConsume_of_top (p : Nat → Bool) (n : Nat) (h : p n = true) :
    maxConsume p n = n := by
  cases n with
  | zero => rfl
  | succ n => simp [maxConsume, h]

theorem maxConsume_spec (p : Nat → Bool) (n : Nat) (h0 : p 0 = true) :
    p (maxConsume p n) = true := by
  induction n with
  | zero => simpa [maxConsume] using h0
  | succ n ih =>
    simp only [maxConsume]
    split
    · assumption
    · exact ih

/-- ZIP error kinds (source: `error.rs` / `zip.rs` `ZipError`).
`InvalidMimetype` carries its message as a list of Unicode scalar values
(strings are modelled as lists of code points throughout). -/
inductive ZipError where
  | FileNotFound
  | InvalidFormat
  | UnsupportedCompression
  | DecompressError
  | CrcMismatch
  | IoError
  | CentralDirFull
  | BufferTooSmall
  | FileTooLarge
  | InvalidMimetype (msg : List Nat)
  | UnsupportedZip64
deriving DecidableEq

/-- Runtime-configurable ZIP safety limits (source: `ZipLimits`). -/
structure ZipLimits where
  max_file_read_size : Nat
  max_mimetype_size : Nat
  strict : Bool
  max_eocd_scan : Nat
deriving DecidableEq

/-- Central directory entry metadata (source: `CdEntry`). Filenames are
UTF-8 (lossily) decoded lists of Unicode scalar values. -/
structure CdEntry where
  method : Nat
  compressed_size : Nat
  uncompressed_size : Nat
  local_header_offset : Nat
  crc32 : Nat
  filename : List Nat
deriving DecidableEq

/-- EOCD parse result (source: `EocdInfo`). -/
structure EocdInfo where
  cd_offset : Nat
  cd_size : Nat
  num_entries : Nat
deriving DecidableEq

/-- ZIP64 EOCD parse result (source: `Zip64EocdInfo`). -/
structure Zip64EocdInfo where
  disk_number : Nat
  disk_with_cd_start : Nat
  num_entries : Nat
  cd_size : Nat
  cd_offset : Nat
deriving DecidableEq

/-- `SIG_EOCD` -/
def sigEocd : Nat := 0x06054b50
/-- `SIG_ZIP64_EOCD` -/
def sigZip64Eocd : Nat := 0x06064b50
/-- `SIG_ZIP64_EOCD_LOCATOR` -/
def sigZip64Locator : Nat := 0x07064b50
/-- `SIG_CD_ENTRY` -/
def sigCdEntry : Nat := 0x02014b50
/-- `MAX_EOCD_SCAN = EOCD_MIN_SIZE + u16::MAX` -/
def maxEocdScanC : Nat := 22 + 65535
/-- `MAX_CD_ENTRIES` -/
def maxCdEntriesC : Nat := 256

/-- `file.read_exact` of `n` bytes at absolute position `pos`:
succeeds exactly when the range is inside the file. -/
def readExact (file : List Nat) (pos n : Nat) : Option (List Nat) :=
  if pos + n ≤ file.length then some ((file.drop pos).take n) else none

/-- Parse a ZIP64 EOCD locator from the 20 bytes preceding `eocdPos`
(source: `find_eocd`, lines 252-281). Returns `(disk, zip64 EOCD offset,
total disks)` when the locator signature matches. -/
def parseLocator (file : List Nat) (eocdPos : Nat) : Option (Nat × Nat × Nat) :=
  match readExact file (eocdPos - 20) 20 with
  | none => none
  | some l =>
    if readU32 l 0 = sigZip64Locator then
      some (readU32 l 4, readU64 l 8, readU32 l 16)
    else none

/-- Parse the ZIP64 EOCD record at `offset` (source: `read_zip64_eocd`). -/
def readZip64Eocd (file : List Nat) (offset : Nat) : Except ZipError Zip64EocdInfo :=
  match readExact file offset 56 with
  | none => .error .IoError
  | some fixed =>
    if readU32 fixed 0 ≠ sigZip64Eocd then .error .InvalidFormat
    else if readU64 fixed 4 < 44 then .error .InvalidFormat
    else .ok { disk_number := readU32 fixed 16
             , disk_with_cd_start := readU32 fixed 20
             , num_entries := readU64 fixed 32
             , cd_size := readU64 fixed 40
             , cd_offset := readU64 fixed 48 }

/-- Candidate test in the backwards EOCD scan: the EOCD signature appears at
buffer index `i` and `eocd_pos + 22 + comment_len` equals the file size
(source: `find_eocd`, lines 235-245). -/
def eocdCandAt (file buffer : List Nat) (scanBase i : Nat) : Bool :=
  readU32 buffer i == sigEocd &&
    scanBase + i + 22 + readU16 buffer (i + 20) == file.length

/-- Processing of an accepted EOCD candidate: ZIP64 sentinel / locator
handling and central-directory bound checks (source: `find_eocd`,
lines 236-318 after the candidate is accepted). -/
def processEocdCandidate (file buffer : List Nat) (scanBase i : Nat) :
    Except ZipError EocdInfo :=
  let numEntries := readU16 buffer (i + 8)
  let cdSize32 := readU32 buffer (i + 12)
  let cdOffset32 := readU32 buffer (i + 16)
  let eocdPos := scanBase + i
  let sentinel : Bool :=
    numEntries == 65535 || cdSize32 == 4294967295 || cdOffset32 == 4294967295
  let loc := if 20 ≤ eocdPos then parseLocator file eocdPos else none
  if sentinel || loc.isSome then
    match loc with
    | none => .error .InvalidFormat
    | some (zip64Disk, zip64Offset, totalDisks) =>
      if zip64Disk ≠ 0 ∨ totalDisks ≠ 1 then .error .UnsupportedZip64
      else
        match readZip64Eocd file zip64Offset with
        | .error e => .error e
        | .ok z =>
          if z.disk_number ≠ 0 ∨ z.disk_with_cd_start ≠ 0 then
            .error .UnsupportedZip64
          else if eocdPos < z.cd_offset + z.cd_size ∨
              file.length < z.cd_offset + z.cd_size then
            .error .InvalidFormat
          else .ok ⟨z.cd_offset, z.cd_size, z.num_entries⟩
  else if eocdPos < cdOffset32 + cdSize32 ∨
      file.length < cdOffset32 + cdSize32 then
    .error .InvalidFormat
  else .ok ⟨cdOffset32, cdSize32, numEntries⟩

/-- The backwards scan `for i in (0..=bytes_read.saturating_sub(22)).rev()`:
`i` is the current index; signature matches whose comment-length check fails
are skipped (source: `find_eocd`, lines 234-320). -/
def scanEocd (file buffer : List Nat) (scanBase : Nat) :
    Nat → Except ZipError EocdInfo
  | 0 =>
    if eocdCandAt file buffer scanBase 0 then
      processEocdCandidate file buffer scanBase 0
    else .error .InvalidFormat
  | i + 1 =>
    if eocdCandAt file buffer scanBase (i + 1) then
      processEocdCandidate file buffer scanBase (i + 1)
    else scanEocd file buffer scanBase i

/-- `StreamingZip::find_eocd`. The tail `read` is modelled as filling the
whole scan buffer (`bytes_read = scan_range`), as it does for in-memory
sources. Out-of-range byte indexing (possible in Rust only when a caller
bypasses the `max_eocd_scan ≥ 22` clamp) is modelled as reading zero bytes. -/
def findEocd (file : List Nat) (maxScan : Nat) : Except ZipError EocdInfo :=
  if file.length < 22 then .error .InvalidFormat
  else
    let scanRange := min file.length maxScan
    let scanBase := file.length - scanRange
    scanEocd file (file.drop scanBase) scanBase (scanRange - 22)

/-- The topmost (largest-index) scan position passing both the signature and
the comment-length position check. -/
def topCandidate (file : List Nat) (maxScan : Nat) : Option Nat :=
  let scanRange := min file.length maxScan
  let scanBase := file.length - scanRange
  ((List.range (scanRange - 22 + 1)).reverse).find?
    (fun i => eocdCandAt file (file.drop scanBase) scanBase i)

/-- Result of processing the candidate at index `i` of the scan window. -/
def eocdAttempt (file : List Nat) (maxScan i : Nat) : Except ZipError EocdInfo :=
  let scanRange := min file.length maxScan
  let scanBase := file.length - scanRange
  processEocdCandidate file (file.drop scanBase) scanBase i

theorem scanEocd_eq_find (file buffer : List Nat) (scanBase : Nat) (i : Nat) :
    scanEocd file buffer scanBase i =
      match ((List.range (i + 1)).reverse).find?
          (fun j => eocdCandAt file buffer scanBase j) with
      | some j => processEocdCandidate file buffer scanBase j
      | none => .error .InvalidFormat := by
  induction i with
  | zero =>
    simp only [List.range_succ, List.range_zero, List.nil_append,
      List.reverse_cons, List.reverse_nil, List.nil_append, List.find?]
    by_cases h : eocdCandAt file buffer scanBase 0
    · simp [scanEocd, h]
    · simp [scanEocd, h]
  | succ i ih =>
    have hrev : (List.range (i + 1 + 1)).reverse =
        (i + 1) :: (List.range (i + 1)).reverse := by
      rw [List.range_succ, List.reverse_append]
      simp
    rw [hrev]
    by_cases h : eocdCandAt file buffer scanBase (i + 1)
    · simp [scanEocd, h, List.find?]
    · simp only [scanEocd, h, if_false, List.find?, Bool.false_eq_true]
      exact ih

theorem findEocd_eq_top (file : List Nat) (maxScan : Nat)
    (h : 22 ≤ file.length) :
    findEocd file maxScan =
      match topCandidate file maxScan with
      | some i => eocdAttempt file maxScan i
      | none => .error .InvalidFormat := by
  have hlt : ¬ file.length < 22 := Nat.not_lt.mpr h
  simp only [findEocd, hlt, if_false, topCandidate, eocdAttempt]
  exact scanEocd_eq_find _ _ _ _

/-- ZIP64 sentinel test on the EOCD fields of scan-window candidate `i`
(source: `find_eocd`, lines 247-249). -/
def eocdSentinelAt (file : List Nat) (maxScan i : Nat) : Bool :=
  let scanBase := file.length - min file.length maxScan
  let buffer := file.drop scanBase
  readU16 buffer (i + 8) == 65535 || readU32 buffer (i + 12) == 4294967295 ||
    readU32 buffer (i + 16) == 4294967295

/-- ZIP64 locator lookup for scan-window candidate `i`
(source: `find_eocd`, lines 251-281). -/
def eocdLocAt (file : List Nat) (maxScan i : Nat) : Option (Nat × Nat × Nat) :=
  let scanBase := file.length - min file.length maxScan
  if 20 ≤ scanBase + i then parseLocator file (scanBase + i) else none

/-- C2: opening a source shorter than 22 bytes fails with `InvalidFormat`;
otherwise the EOCD is found by scanning the last `min(file_size,
max_eocd_scan)` bytes backwards for signature `0x06054b50`, accepting a
candidate only when `eocd_pos + 22 + comment_len` equals the file size (so
false signature matches embedded in data are skipped), and failing with
`InvalidFormat` when no candidate passes the check. -/
theorem c2_eocd_discovery (file : List Nat) (maxScan : Nat) :
    (file.length < 22 → findEocd file maxScan = .error .InvalidFormat) ∧
    (22 ≤ file.length → 22 ≤ maxScan →
      findEocd file maxScan =
        match topCandidate file maxScan with
        | some i => eocdAttempt file maxScan i
        | none => .error .InvalidFormat) := by
  constructor
  · intro h
    simp [findEocd, h]
  · intro h _
    exact findEocd_eq_top file maxScan h

/-- A minimal well-formed 22-byte EOCD-only archive (no entries). -/
def exFileC2 : List Nat :=
  [0x50, 0x4B, 0x05, 0x06, 0, 0, 0, 0, 0, 0, 0, 0,
   0, 0, 0, 0, 0, 0, 0, 0, 0, 0]

theorem c2_eocd_discovery_witness :
    findEocd [] 65557 = .error .InvalidFormat ∧
    findEocd exFileC2 65557 =
      (match topCandidate exFileC2 65557 with
       | some i => eocdAttempt exFileC2 65557 i
       | none => .error .InvalidFormat) :=
  ⟨(c2_eocd_discovery [] 65557).1 (by decide),
   (c2_eocd_discovery exFileC2 65557).2 (by decide) (by decide)⟩

/-- C3: at the accepted EOCD candidate, a ZIP64 sentinel with no locator
fails with `InvalidFormat`; a locator whose disk number is nonzero or whose
total-disk count is not 1 fails with `UnsupportedZip64`; and a ZIP64 EOCD
record with nonzero disk fields fails with `UnsupportedZip64`. -/
theorem c3_zip64_guards (file : List Nat) (maxScan i : Nat)
    (hlen : 22 ≤ file.length) (hms : 22 ≤ maxScan)
    (htop : topCandidate file maxScan = some i) :
    (eocdSentinelAt file maxScan i = true → eocdLocAt file maxScan i = none →
      findEocd file maxScan = .error .InvalidFormat) ∧
    (∀ zd zoff td, eocdLocAt file maxScan i = some (zd, zoff, td) →
      (zd ≠ 0 ∨ td ≠ 1) →
      findEocd file maxScan = .error .UnsupportedZip64) ∧
    (∀ zoff z, eocdLocAt file maxScan i = some (0, zoff, 1) →
      readZip64Eocd file zoff = .ok z →
      (z.disk_number ≠ 0 ∨ z.disk_with_cd_start ≠ 0) →
      findEocd file maxScan = .error .UnsupportedZip64) := by
  have heq := findEocd_eq_top file maxScan hlen
  rw [htop] at heq
  refine ⟨?_, ?_, ?_⟩
  · intro hs hl
    rw [heq]
    simp only [eocdAttempt, processEocdCandidate]
    simp only [eocdSentinelAt] at hs
    simp only [eocdLocAt] at hl
    rw [hs, hl]
    simp
  · intro zd zoff td hl hd
    rw [heq]
    simp only [eocdAttempt, processEocdCandidate]
    simp only [eocdLocAt] at hl
    rw [hl]
    simp only [Option.isSome_some, Bool.or_true, if_true]
    rw [if_pos hd]
  · intro zoff z hl hz hd
    rw [heq]
    simp only [eocdAttempt, processEocdCandidate]
    simp only [eocdLocAt] at hl
    rw [hl]
    simp only [Option.isSome_some, Bool.or_true, if_true]
    have : ¬ ((0 : Nat) ≠ 0 ∨ (1 : Nat) ≠ 1) := by simp
    rw [if_neg this, hz]
    simp only
    rw [if_pos hd]

/-- 22-byte archive whose EOCD carries the `0xFFFF` entry-count sentinel and
no ZIP64 locator. -/
def exFileC3a : List Nat :=
  [0x50, 0x4B, 0x05, 0x06, 0, 0, 0, 0, 0xFF, 0xFF, 0, 0,
   0, 0, 0, 0, 0, 0, 0, 0, 0, 0]

/-- 42-byte archive: ZIP64 locator with disk number 1, then a sentinel EOCD. -/
def exFileC3b : List Nat :=
  [0x50, 0x4B, 0x06, 0x07, 1, 0, 0, 0, 0, 0, 0, 0, 0, 0, 0, 0, 1, 0, 0, 0,
   0x50, 0x4B, 0x05, 0x06, 0, 0, 0, 0, 0xFF, 0xFF, 0, 0,
   0, 0, 0, 0, 0, 0, 0, 0, 0, 0]

/-- 98-byte archive: ZIP64 EOCD record with disk number 1, a well-formed
locator, then a sentinel EOCD. -/
def exFileC3c : List Nat :=
  [0x50, 0x4B, 0x06, 0x06, 44, 0, 0, 0, 0, 0, 0, 0, 0, 0, 0, 0,
   1, 0, 0, 0, 0, 0, 0, 0, 0, 0, 0, 0, 0, 0, 0, 0,
   0, 0, 0, 0, 0, 0, 0, 0, 0, 0, 0, 0, 0, 0, 0, 0,
   0, 0, 0, 0, 0, 0, 0, 0,
   0x50, 0x4B, 0x06, 0x07, 0, 0, 0, 0, 0, 0, 0, 0, 0, 0, 0, 0, 1, 0, 0, 0,
   0x50, 0x4B, 0x05, 0x06, 0, 0, 0, 0, 0xFF, 0xFF, 0xFF, 0xFF,
   0xFF, 0xFF, 0xFF, 0xFF, 0xFF, 0xFF, 0xFF, 0xFF, 0, 0]

theorem c3_zip64_guards_witness :
    findEocd exFileC3a 65557 = .error .InvalidFormat ∧
    findEocd exFileC3b 65557 = .error .UnsupportedZip64 ∧
    findEocd exFileC3c 65557 = .error .UnsupportedZip64 :=
  ⟨(c3_zip64_guards exFileC3a 65557 0 (by decide) (by decide) (by decide)).1
      (by decide) (by decide),
   (c3_zip64_guards exFileC3b 65557 20 (by decide) (by decide) (by decide)).2.1
      1 0 1 (by decide) (by decide),
   (c3_zip64_guards exFileC3c 65557 76 (by decide) (by decide) (by decide)).2.2
      0 ⟨1, 0, 0, 0, 0⟩ (by decide) (by decide) (by decide)⟩

set_option linter.unusedVariables false

/-- Decode one UTF-8-encoded scalar value from the front of a byte list,
returning the code point and the number of bytes consumed. Rejects stray or
missing continuation bytes, overlong encodings, surrogates, and code points
above `0x10FFFF`, exactly as `core::str::from_utf8`. -/
def utf8Step : List Nat → Option (Nat × Nat)
  | [] => none
  | b :: bs =>
    if b < 0x80 then some (b, 1)
    else if b < 0xC0 then none
    else if b < 0xE0 then
      match bs with
      | b1 :: _ =>
        if 0x80 ≤ b1 ∧ b1 < 0xC0 then
          let cp := (b - 0xC0) * 64 + (b1 - 0x80)
          if cp < 0x80 then none else some (cp, 2)
        else none
      | _ => none
    else if b < 0xF0 then
      match bs with
      | b1 :: b2 :: _ =>
        if (0x80 ≤ b1 ∧ b1 < 0xC0) ∧ (0x80 ≤ b2 ∧ b2 < 0xC0) then
          let cp := (b - 0xE0) * 4096 + (b1 - 0x80) * 64 + (b2 - 0x80)
          if cp < 0x800 then none
          else if 0xD800 ≤ cp ∧ cp < 0xE000 then none
          else some (cp, 3)
        else none
      | _ => none
    else if b < 0xF8 then
      match bs with
      | b1 :: b2 :: b3 :: _ =>
        if (0x80 ≤ b1 ∧ b1 < 0xC0) ∧ (0x80 ≤ b2 ∧ b2 < 0xC0) ∧
            (0x80 ≤ b3 ∧ b3 < 0xC0) then
          let cp := (b - 0xF0) * 262144 + (b1 - 0x80) * 4096 +
            (b2 - 0x80) * 64 + (b3 - 0x80)
          if cp < 0x10000 then none
          else if 0x10FFFF < cp then none
          else some (cp, 4)
        else none
      | _ => none
    else none

/-- Fuel-driven UTF-8 decoding loop; `utf8Decode` supplies `fuel =
bs.length`, which always suffices since each step consumes at least one
byte. -/
def utf8DecodeAux : Nat → List Nat → Option (List Nat)
  | _, [] => some []
  | 0, _ :: _ => none
  | fuel + 1, b :: bs =>
    match utf8Step (b :: bs) with
    | none => none
    | some (cp, k) =>
      (utf8DecodeAux fuel ((b :: bs).drop k)).map (fun s => cp :: s)

/-- Strict UTF-8 decoding of a byte list into its Unicode scalar values,
as `core::str::from_utf8`. -/
def utf8Decode (bs : List Nat) : Option (List Nat) :=
  utf8DecodeAux bs.length bs

/-- Lossy UTF-8 decoding (`String::from_utf8_lossy`) as used to decode ZIP
entry filenames. Modelling note: the replacement behaviour on malformed
names is simplified to a single U+FFFD (no claim in this development
depends on decoding a malformed name). -/
def utf8Lossy (bs : List Nat) : List Nat :=
  match utf8Decode bs with
  | some s => s
  | none => [0xFFFD]

theorem utf8Step_ascii (b : Nat) (bs : List Nat) (h : b < 0x80) :
    utf8Step (b :: bs) = some (b, 1) := by
  simp [utf8Step, h]

theorem utf8Step_result (bs : List Nat) (cp k : Nat)
    (h : utf8Step bs = some (cp, k)) :
    1 ≤ k ∧ (cp < 0x80 → k = 1 ∧ ∃ t, bs = cp :: t) := by
  match bs with
  | [] => simp [utf8Step] at h
  | b :: bs =>
    by_cases h1 : b < 0x80
    · rw [utf8Step_ascii b bs h1] at h
      injection h with h
      injection h with h h2
      subst h; subst h2
      exact ⟨Nat.le_refl 1, fun _ => ⟨rfl, bs, rfl⟩⟩
    · refine ⟨?_, fun hcp => absurd hcp (Nat.not_lt.mpr ?_)⟩ <;>
      · simp only [utf8Step, h1, if_false] at h
        split at h
        · exact absurd h (by simp)
        · split at h
          · rename_i hmatch
            match bs, hmatch with
            | b1 :: t, _ =>
              simp only at h
              split at h
              · split at h
                · exact absurd h (by simp)
                · rename_i hge
                  injection h with h
                  injection h with hcp hk
                  subst hcp; subst hk
                  omega
              · exact absurd h (by simp)
          · split at h
            · rename_i hmatch
              match bs, hmatch with
              | b1 :: b2 :: t, _ =>
                simp only at h
                split at h
                · split at h
                  · exact absurd h (by simp)
                  · split at h
                    · exact absurd h (by simp)
                    · rename_i hge hsur
                      injection h with h
                      injection h with hcp hk
                      subst hcp; subst hk
                      omega
                · exact absurd h (by simp)
              | [b1], hm => simp at h
              | [], hm => simp at h
            · split at h
              · rename_i hmatch
                match bs, hmatch with
                | b1 :: b2 :: b3 :: t, _ =>
                  simp only at h
                  split at h
                  · split at h
                    · exact absurd h (by simp)
                    · split at h
                      · exact absurd h (by simp)
                      · rename_i hge hmax
                        injection h with h
                        injection h with hcp hk
                        subst hcp; subst hk
                        omega
                  · exact absurd h (by simp)
                | [b1, b2], hm => simp at h
                | [b1], hm => simp at h
                | [], hm => simp at h
              · exact absurd h (by simp)

theorem utf8DecodeAux_ascii (fuel : Nat) (bs : List Nat)
    (hf : bs.length ≤ fuel) (h : ∀ b ∈ bs, b < 0x80) :
    utf8DecodeAux fuel bs = some bs := by
  induction fuel generalizing bs with
  | zero =>
    match bs with
    | [] => rfl
    | b :: bs => simp at hf
  | succ fuel ih =>
    match bs with
    | [] => rfl
    | b :: bs =>
      have hb : b < 0x80 := h b (List.mem_cons_self b bs)
      simp only [utf8DecodeAux, utf8Step_ascii b bs hb, List.drop_succ_cons,
        List.drop_zero]
      rw [ih bs (by simpa using Nat.le_of_succ_le_succ (by simpa using hf))
        (fun x hx => h x (List.mem_cons_of_mem b hx))]
      rfl

/-- ASCII byte lists decode to themselves (UTF-8 is the identity on
ASCII). -/
theorem utf8Decode_ascii (bs : List Nat) (h : ∀ b ∈ bs, b < 0x80) :
    utf8Decode bs = some bs :=
  utf8DecodeAux_ascii bs.length bs (Nat.le_refl _) h

theorem utf8DecodeAux_ascii_inj (fuel : Nat) (bs s : List Nat)
    (hdec : utf8DecodeAux fuel bs = some s) (h : ∀ c ∈ s, c < 0x80) :
    bs = s := by
  induction fuel generalizing bs s with
  | zero =>
    match bs with
    | [] => simpa [utf8DecodeAux] using hdec.symm
    | b :: bs => simp [utf8DecodeAux] at hdec
  | succ fuel ih =>
    match bs with
    | [] => simpa [utf8DecodeAux] using hdec.symm
    | b :: bs =>
      simp only [utf8DecodeAux] at hdec
      match hstep : utf8Step (b :: bs) with
      | none => rw [hstep] at hdec; simp at hdec
      | some (cp, k) =>
        rw [hstep] at hdec
        dsimp only at hdec
        match hrest : utf8DecodeAux fuel ((b :: bs).drop k) with
        | none => rw [hrest] at hdec; simp at hdec
        | some s' =>
          rw [hrest] at hdec
          have hdec2 : cp :: s' = s := by simpa using hdec
          subst hdec2
          have hcp : cp < 0x80 := h cp (List.mem_cons_self cp s')
          obtain ⟨-, hone⟩ := utf8Step_result (b :: bs) cp k hstep
          obtain ⟨hk, t, hbs⟩ := hone hcp
          subst hk
          injection hbs with hb ht
          subst hb; subst ht
          simp only [List.drop_succ_cons, List.drop_zero] at hrest
          rw [ih bs s' hrest (fun c hc => h c (List.mem_cons_of_mem _ hc))]

/-- If a byte list decodes to an all-ASCII scalar sequence, the bytes are
that sequence. -/
theorem utf8Decode_ascii_inj (bs s : List Nat)
    (hdec : utf8Decode bs = some s) (h : ∀ c ∈ s, c < 0x80) : bs = s :=
  utf8DecodeAux_ascii_inj bs.length bs s hdec h

/-- The extra-field loop of `read_cd_entry` (source lines 417-475):
walks `(header_id, field_size, payload)` records while at least 4 bytes
remain, upgrading the three ZIP64 values sequentially inside a
`header_id == 0x0001` field. Arguments: fuel (one unit per field; callers
pass `extraLen`, which suffices since every iteration consumes ≥ 4 bytes),
absolute position, remaining extra bytes, current values `u c o`, and
got-flags. Returns final values, got-flags and position. The fuel-exhausted
branch is unreachable at the call site. -/
def parseExtra (file : List Nat) (needU needC needO : Bool) :
    Nat → Nat → Nat → Nat → Nat → Nat → Bool → Bool → Bool →
    Except ZipError (Nat × Nat × Nat × Bool × Bool × Bool × Nat)
  | fuel, pos, rem, u, c, o, gu, gc, go =>
    if rem < 4 then .ok (u, c, o, gu, gc, go, pos + rem)
    else
      match fuel with
      | 0 => .error .IoError
      | fuel + 1 =>
        match readExact file pos 4 with
        | none => .error .IoError
        | some hdr =>
          let headerId := readU16 hdr 0
          let fieldSize := readU16 hdr 2
          let rem2 := rem - 4
          if rem2 < fieldSize then .error .InvalidFormat
          else if headerId = 1 then
            let p := pos + 4
            let offU := if needU then 8 else 0
            let offC := if needC then 8 else 0
            if needU ∧ fieldSize < 8 then .error .InvalidFormat
            else
              match (if needU then readExact file p 8 else some []) with
              | none => .error .IoError
              | some valU =>
                if needC ∧ fieldSize - offU < 8 then .error .InvalidFormat
                else
                  match (if needC then readExact file (p + offU) 8 else some []) with
                  | none => .error .IoError
                  | some valC =>
                    if needO ∧ fieldSize - offU - offC < 8 then .error .InvalidFormat
                    else
                      match (if needO then readExact file (p + offU + offC) 8
                          else some []) with
                      | none => .error .IoError
                      | some valO =>
                        parseExtra file needU needC needO fuel
                          (pos + 4 + fieldSize) (rem2 - fieldSize)
                          (if needU then fromLe valU else u)
                          (if needC then fromLe valC else c)
                          (if needO then fromLe valO else o)
                          (needU || gu) (needC || gc) (needO || go)
          else
            parseExtra file needU needC needO fuel
              (pos + 4 + fieldSize) (rem2 - fieldSize) u c o gu gc go

/-- `StreamingZip::read_cd_entry` at absolute position `pos`: returns
`none` when the signature read fails or is not a CD-entry signature,
otherwise the parsed entry together with the position just past the record.
Seeks past over-long filenames and the entry comment are modelled as pure
position arithmetic (they cannot fail). -/
def readCdEntry (file : List Nat) (pos : Nat) :
    Except ZipError (Option (CdEntry × Nat)) :=
  match readExact file pos 4 with
  | none => .ok none
  | some sigB =>
    if fromLe sigB ≠ sigCdEntry then .ok none
    else
      match readExact file (pos + 4) 42 with
      | none => .error .IoError
      | some buf =>
        let method := readU16 buf 6
        let crc := readU32 buf 12
        let csize32 := readU32 buf 16
        let usize32 := readU32 buf 20
        let nameLen := readU16 buf 24
        let extraLen := readU16 buf 26
        let commentLen := readU16 buf 28
        let off32 := readU32 buf 38
        let nameRes : Except ZipError (List Nat) :=
          if 0 < nameLen ∧ nameLen ≤ 256 then
            match readExact file (pos + 46) nameLen with
            | none => .error .IoError
            | some nb => .ok (utf8Lossy nb)
          else .ok []
        match nameRes with
        | .error e => .error e
        | .ok fname =>
          match parseExtra file (usize32 == 4294967295) (csize32 == 4294967295)
              (off32 == 4294967295) extraLen (pos + 46 + nameLen) extraLen
              usize32 csize32 off32 false false false with
          | .error e => .error e
          | .ok (u, c, o, gu, gc, go, p2) =>
            if ((usize32 == 4294967295) && !gu) ||
                ((csize32 == 4294967295) && !gc) ||
                ((off32 == 4294967295) && !go) then
              .error .InvalidFormat
            else
              .ok (some ({ method := method, compressed_size := c,
                           uncompressed_size := u, local_header_offset := o,
                           crc32 := crc, filename := fname },
                         p2 + commentLen))

/-- Open ZIP reader state (source: `StreamingZip` minus the file handle). -/
structure ZipReader where
  entries : List CdEntry
  num_entries : Nat
  limits : Option ZipLimits
deriving DecidableEq

/-- The central-directory parsing loop of `new_with_limits` (source lines
175-190): up to `entries_to_scan` iterations; stops at `cd_end` or on a
non-entry record (`InvalidFormat` in strict mode); the `heapless` push
failure maps to `CentralDirFull`. -/
def parseCd (file : List Nat) (strict : Bool) (cdEnd : Nat) :
    Nat → Nat → List CdEntry → Except ZipError (List CdEntry)
  | _, 0, acc => .ok acc
  | pos, n + 1, acc =>
    if cdEnd ≤ pos then
      if strict then .error .InvalidFormat else .ok acc
    else
      match readCdEntry file pos with
      | .error e => .error e
      | .ok none => if strict then .error .InvalidFormat else .ok acc
      | .ok (some (e, pos2)) =>
        if 256 ≤ acc.length then .error .CentralDirFull
        else parseCd file strict cdEnd pos2 n (acc ++ [e])

/-- `StreamingZip::new_with_limits`. The `checked_add` on
`cd_offset + cd_size` cannot overflow in the `Nat` model; the
`min(num_entries, usize::MAX)` cast is the identity on the 64-bit target. -/
def newWithLimits (file : List Nat) (limits : Option ZipLimits) :
    Except ZipError ZipReader :=
  let maxScan := match limits with
    | some l => min l.max_eocd_scan maxEocdScanC
    | none => maxEocdScanC
  match findEocd file maxScan with
  | .error e => .error e
  | .ok eocd =>
    let strict : Bool := match limits with | some l => l.strict | none => false
    if strict = true ∧ maxCdEntriesC < eocd.num_entries then .error .CentralDirFull
    else
      match parseCd file strict (eocd.cd_offset + eocd.cd_size)
          eocd.cd_offset (min eocd.num_entries maxCdEntriesC) [] with
      | .error e => .error e
      | .ok es => .ok ⟨es, eocd.num_entries, limits⟩

/-- `StreamingZip::new`. -/
def newZip (file : List Nat) : Except ZipError ZipReader :=
  newWithLimits file none

theorem parseCd_length (file : List Nat) (strict : Bool) (cdEnd : Nat) :
    ∀ n pos acc es, parseCd file strict cdEnd pos n acc = .ok es →
      es.length ≤ acc.length + n := by
  intro n
  induction n with
  | zero =>
    intro pos acc es h
    simp only [parseCd] at h
    injection h with h
    subst h
    exact Nat.le_refl _
  | succ n ih =>
    intro pos acc es h
    simp only [parseCd] at h
    split at h
    · split at h
      · exact Except.noConfusion h
      · injection h with h
        subst h
        exact Nat.le_add_right _ _
    · split at h
      · exact Except.noConfusion h
      · split at h
        · exact Except.noConfusion h
        · injection h with h
          subst h
          exact Nat.le_add_right _ _
      · split at h
        · exact Except.noConfusion h
        · have := ih _ _ _ h
          simp only [List.length_append, List.length_cons, List.length_nil] at this
          omega

/-- C4: opening parses at most `MAX_CD_ENTRIES = 256` central-directory
records. With strict limits and more than 256 declared entries, open fails
with `CentralDirFull` (before the parsing loop runs). In lenient mode
(strict = false, or no limits at all) the open result is exactly the
parsing loop run for `min(declared, 256)` records, and any successful parse
returns at most `min(declared, 256)` entries; the only-logged warning for
truncation is not observable in the result. -/
theorem c4_cd_entry_cap (file : List Nat) (l : ZipLimits) (eocd : EocdInfo)
    (hfind : findEocd file (min l.max_eocd_scan maxEocdScanC) = .ok eocd) :
    (l.strict = true → 256 < eocd.num_entries →
      newWithLimits file (some l) = .error .CentralDirFull) ∧
    (l.strict = false →
      newWithLimits file (some l) =
        (parseCd file false (eocd.cd_offset + eocd.cd_size) eocd.cd_offset
          (min eocd.num_entries 256) []).map
          (fun es => ⟨es, eocd.num_entries, some l⟩)) ∧
    (∀ eocd2, findEocd file maxEocdScanC = .ok eocd2 →
      newWithLimits file none =
        (parseCd file false (eocd2.cd_offset + eocd2.cd_size) eocd2.cd_offset
          (min eocd2.num_entries 256) []).map
          (fun es => ⟨es, eocd2.num_entries, none⟩)) ∧
    (∀ s cdEnd pos n acc es, parseCd file s cdEnd pos n acc = .ok es →
      es.length ≤ acc.length + n) := by
  refine ⟨?_, ?_, ?_, fun s cdEnd pos n acc es h => parseCd_length file s cdEnd n pos acc es h⟩
  · intro hs hn
    simp only [newWithLimits, hfind, maxCdEntriesC]
    rw [if_pos ⟨hs, hn⟩]
  · intro hs
    simp only [newWithLimits, hfind, maxCdEntriesC]
    rw [if_neg (by simp [hs])]
    cases hp : parseCd file false (eocd.cd_offset + eocd.cd_size)
        eocd.cd_offset (min eocd.num_entries 256) [] with
    | error e => simp [hs, hp, Except.map]
    | ok es => simp [hs, hp, Except.map]
  · intro eocd2 hfind2
    simp only [newWithLimits, hfind2, maxCdEntriesC]
    rw [if_neg (by simp)]
    cases hp : parseCd file false (eocd2.cd_offset + eocd2.cd_size)
        eocd2.cd_offset (min eocd2.num_entries 256) [] with
    | error e => simp [hp, Except.map]
    | ok es => simp [hp, Except.map]

/-- 22-byte EOCD-only archive declaring 257 central-directory entries. -/
def exFileC4 : List Nat :=
  [0x50, 0x4B, 0x05, 0x06, 0, 0, 0, 0, 1, 1, 0, 0,
   0, 0, 0, 0, 0, 0, 0, 0, 0, 0]

theorem c4_cd_entry_cap_witness :
    newWithLimits exFileC4 (some ⟨1024, 1024, true, 65557⟩) =
      .error .CentralDirFull ∧
    newWithLimits exFileC4 (some ⟨1024, 1024, false, 65557⟩) =
      (parseCd exFileC4 false 0 0 256 []).map
        (fun es => ⟨es, 257, some ⟨1024, 1024, false, 65557⟩⟩) ∧
    ([] : List CdEntry).length ≤ ([] : List CdEntry).length + 256 :=
  ⟨(c4_cd_entry_cap exFileC4 ⟨1024, 1024, true, 65557⟩ ⟨0, 0, 257⟩
      (by decide)).1 rfl (by decide),
   (c4_cd_entry_cap exFileC4 ⟨1024, 1024, false, 65557⟩ ⟨0, 0, 257⟩
      (by decide)).2.1 rfl,
   (c4_cd_entry_cap exFileC4 ⟨1024, 1024, false, 65557⟩ ⟨0, 0, 257⟩
      (by decide)).2.2.2 false 0 0 256 [] [] (by decide)⟩

/-- Abstract model of the `miniz_oxide` raw-DEFLATE inflater for one fixed
compressed stream. `outLen i` is the cumulative number of output bytes
produced once `i` compressed bytes have been consumed; `output` is the full
decompressed byte sequence; `endPos` is the consumed position at which the
inflater reports `StreamEnd`. The laws state that output grows monotonically
with consumed input, starts empty, and is complete at stream end; a step of
the machine consumes as much of the offered input as fits the available
output space (capped at `endPos`). -/
structure InflateModel where
  outLen : Nat → Nat
  endPos : Nat
  output : List Nat
  mono : ∀ i j, i ≤ j → outLen i ≤ outLen j
  zero : outLen 0 = 0
  total : output.length = outLen endPos

/-- Bytes consumed by one `inflate` call offered `avail` input bytes and
`space` output bytes: the largest amount that keeps the produced output
within `space`, never running past `endPos`. -/
def InflateModel.consume (M : InflateModel) (c avail space : Nat) : Nat :=
  maxConsume (fun j => decide (M.outLen (c + j) - M.outLen c ≤ space))
    (min avail (M.endPos - c))

/-- Output bytes produced by that call. -/
def InflateModel.produce (M : InflateModel) (c k : Nat) : List Nat :=
  (M.output.take (M.outLen (c + k))).drop (M.outLen c)

/-- One `inflate` call plus the status handling shared by both DEFLATE
loops (`read_file_with_scratch` lines 602-631, with the output-capacity
check; `read_file_to_writer_with_scratch` lines 736-768 without it —
selected by `checkCap`). `space` is the output capacity offered to the
call; `recur` is the continuation for the `Ok` status. -/
def inflStep (M : InflateModel) (crc : Nat) (checkCap : Bool)
    (bufLen : Nat)
    (recur : Nat → Nat → Nat → Nat → List Nat →
      Option (Except ZipError Nat × List Nat))
    (space : Nat → Nat)
    (c inPos compRem written : Nat) (out : List Nat) :
    Option (Except ZipError Nat × List Nat) :=
  if checkCap ∧ bufLen ≤ written ∧ (0 < compRem ∨ c < inPos) then
    some (.error .BufferTooSmall, out)
  else
    let k := M.consume c (inPos - c) (space written)
    let produced := M.produce c k
    let c2 := c + k
    let written2 := written + produced.length
    let out2 := out ++ produced
    if c2 = M.endPos then
      if 0 < compRem ∨ c2 < inPos then some (.error .DecompressError, out2)
      else if crc ≠ 0 ∧ crc32Hash out2 ≠ crc then
        some (.error .CrcMismatch, out2)
      else some (.ok written2, out2)
    else
      if k = 0 ∧ produced.length = 0 then
        some (.error .DecompressError, out2)
      else recur c2 inPos compRem written2 out2

/-- The DEFLATE branch of `read_file_with_scratch` (source lines 583-641):
chunked refills of `input_buf` from the entry data, inflate calls into
`buf[written..]`, stream-end residual check, progress check, and the final
CRC verification. State: machine consumed position `c`, data-read position
`inPos` (so the pending slice is `data[c..inPos]`), unread compressed bytes
`compRem`, `written`, and the bytes written so far `out`. Only the length of
the data region matters to the model (its content semantics live in `M`).
Returns `none` when fuel runs out. -/
def inflBuf (M : InflateModel) (dataLen bufLen inputLen crc : Nat) :
    Nat → Nat → Nat → Nat → Nat → List Nat →
    Option (Except ZipError Nat × List Nat)
  | 0, _, _, _, _, _ => none
  | fuel + 1, c, inPos0, compRem0, written, out =>
    let step := inflStep M crc true bufLen
      (inflBuf M dataLen bufLen inputLen crc fuel)
      (fun w => bufLen - w) c
    if c = inPos0 ∧ 0 < compRem0 then
      let take := min compRem0 inputLen
      if dataLen < inPos0 + take then some (.error .IoError, out)
      else step (inPos0 + take) (compRem0 - take) written out
    else step inPos0 compRem0 written out

/-- The DEFLATE branch of `read_file_to_writer_with_scratch` (source lines
716-774): like `inflBuf` but with the fixed `output_buf` of size
`outBufLen` offered to every inflate call, no output-capacity error, and
chunks written straight to the sink. -/
def inflWriter (M : InflateModel) (dataLen outBufLen inputLen crc : Nat) :
    Nat → Nat → Nat → Nat → Nat → List Nat →
    Option (Except ZipError Nat × List Nat)
  | 0, _, _, _, _, _ => none
  | fuel + 1, c, inPos0, compRem0, written, out =>
    let step := inflStep M crc false 0
      (inflWriter M dataLen outBufLen inputLen crc fuel)
      (fun _ => outBufLen) c
    if c = inPos0 ∧ 0 < compRem0 then
      let take := min compRem0 inputLen
      if dataLen < inPos0 + take then some (.error .IoError, out)
      else step (inPos0 + take) (compRem0 - take) written out
    else step inPos0 compRem0 written out

/-- The STORED branch of `read_file_to_writer_with_scratch` (source lines
692-714): chunked copy of the entry data to the sink with an incrementally
updated CRC hasher, verified once all bytes are copied. -/
def storedWriterLoop (data : List Nat) (inputLen crc : Nat) :
    Nat → Nat → Nat → Nat → List Nat →
    Option (Except ZipError Nat × List Nat)
  | 0, _, _, _, _ => none
  | fuel + 1, remaining, inPos, written, out =>
    if remaining = 0 then
      if crc ≠ 0 ∧ crc32Hash out ≠ crc then some (.error .CrcMismatch, out)
      else some (.ok written, out)
    else
      let take := min remaining inputLen
      if data.length < inPos + take then some (.error .IoError, out)
      else storedWriterLoop data inputLen crc fuel (remaining - take)
        (inPos + take) (written + take) (out ++ (data.drop inPos).take take)

/-- The `ZipLimits` size checks at the top of both read paths
(source lines 541-548 and 677-684). -/
def limitsExceeded (limits : Option ZipLimits) (entry : CdEntry) : Bool :=
  match limits with
  | none => false
  | some l =>
    decide (l.max_file_read_size < entry.uncompressed_size) ||
      decide (l.max_file_read_size < entry.compressed_size)

/-- `StreamingZip::read_file_with_scratch`. `hdr` stands for the outcome of
`calc_data_offset` (local-header parse), `data` for the bytes at the
computed data offset; the `usize::try_from` conversions are the identity on
the 64-bit target. The result pairs the outcome with the bytes written into
the output buffer so far. -/
def readFileWithScratch (M : InflateModel) (limits : Option ZipLimits)
    (entry : CdEntry) (hdr : Except ZipError Unit) (data : List Nat)
    (bufLen inputLen fuel : Nat) :
    Option (Except ZipError Nat × List Nat) :=
  if inputLen = 0 then some (.error .BufferTooSmall, [])
  else if limitsExceeded limits entry then some (.error .FileTooLarge, [])
  else if bufLen < entry.uncompressed_size then
    some (.error .BufferTooSmall, [])
  else
    match hdr with
    | .error e => some (.error e, [])
    | .ok _ =>
      if entry.method = 0 then
        if bufLen < entry.compressed_size then
          some (.error .BufferTooSmall, [])
        else if data.length < entry.compressed_size then
          some (.error .IoError, [])
        else
          let bytes := data.take entry.compressed_size
          if entry.crc32 ≠ 0 ∧ crc32Hash bytes ≠ entry.crc32 then
            some (.error .CrcMismatch, bytes)
          else some (.ok entry.compressed_size, bytes)
      else if entry.method = 8 then
        inflBuf M data.length bufLen inputLen entry.crc32 fuel 0 0
          entry.compressed_size 0 []
      else some (.error .UnsupportedCompression, [])

/-- `StreamingZip::read_file` (default 8 KiB scratch input buffer on the
non-`espidf` target). -/
def readFile (M : InflateModel) (limits : Option ZipLimits) (entry : CdEntry)
    (hdr : Except ZipError Unit) (data : List Nat) (bufLen fuel : Nat) :
    Option (Except ZipError Nat × List Nat) :=
  readFileWithScratch M limits entry hdr data bufLen 8192 fuel

/-- `StreamingZip::read_file_to_writer_with_scratch`; the sink is modelled
as the accumulated byte list (a `Vec` writer never fails). -/
def readFileToWriterWithScratch (M : InflateModel) (limits : Option ZipLimits)
    (entry : CdEntry) (hdr : Except ZipError Unit) (data : List Nat)
    (inputLen outputLen fuel : Nat) :
    Option (Except ZipError Nat × List Nat) :=
  if inputLen = 0 ∨ outputLen = 0 then some (.error .BufferTooSmall, [])
  else if limitsExceeded limits entry then some (.error .FileTooLarge, [])
  else
    match hdr with
    | .error e => some (.error e, [])
    | .ok _ =>
      if entry.method = 0 then
        storedWriterLoop data inputLen entry.crc32 fuel
          entry.compressed_size 0 0 []
      else if entry.method = 8 then
        inflWriter M data.length outputLen inputLen entry.crc32 fuel 0 0
          entry.compressed_size 0 []
      else some (.error .UnsupportedCompression, [])

/-- `StreamingZip::read_file_to_writer` (default 8 KiB scratch buffers). -/
def readFileToWriter (M : InflateModel) (limits : Option ZipLimits)
    (entry : CdEntry) (hdr : Except ZipError Unit) (data : List Nat)
    (fuel : Nat) : Option (Except ZipError Nat × List Nat) :=
  readFileToWriterWithScratch M limits entry hdr data 8192 8192 fuel

theorem produce_append (M : InflateModel) (c k : Nat) :
    M.output.take (M.outLen c) ++ M.produce c k =
      M.output.take (M.outLen (c + k)) := by
  have hm : M.outLen c ≤ M.outLen (c + k) := M.mono _ _ (Nat.le_add_right c k)
  unfold InflateModel.produce
  have h1 : (M.output.take (M.outLen (c + k))).take (M.outLen c) =
      M.output.take (M.outLen c) := by
    rw [List.take_take, min_eq_left hm]
  conv_lhs => rw [← h1]
  rw [List.take_append_drop]

theorem inflStep_ok (M : InflateModel) (crc : Nat) (checkCap : Bool)
    (bufLen : Nat)
    (recur : Nat → Nat → Nat → Nat → List Nat →
      Option (Except ZipError Nat × List Nat))
    (space : Nat → Nat) (c inPos compRem written : Nat) (out : List Nat)
    (n : Nat) (outF : List Nat)
    (hrec : ∀ c' inPos' compRem' written' out',
      out' = M.output.take (M.outLen c') → written' = out'.length →
      recur c' inPos' compRem' written' out' = some (.ok n, outF) →
      outF = M.output ∧ n = M.output.length)
    (hout : out = M.output.take (M.outLen c)) (hw : written = out.length)
    (h : inflStep M crc checkCap bufLen recur space c inPos compRem written out =
      some (.ok n, outF)) :
    outF = M.output ∧ n = M.output.length := by
  simp only [inflStep] at h
  split at h
  · exact absurd h (by simp)
  · split at h
    · rename_i hend
      split at h
      · exact absurd h (by simp)
      · split at h
        · exact absurd h (by simp)
        · simp only [Option.some.injEq, Prod.mk.injEq, Except.ok.injEq] at h
          obtain ⟨hn, hF⟩ := h
          have hout2 : out ++ M.produce c (M.consume c (inPos - c) (space written)) =
              M.output := by
            rw [hout, produce_append, hend, ← M.total, List.take_length]
          constructor
          · rw [← hF, hout2]
          · have h2 := congrArg List.length hout2
            simp only [List.length_append] at h2
            omega
    · split at h
      · exact absurd h (by simp)
      · refine hrec _ _ _ _ _ ?_ ?_ h
        · rw [hout, produce_append]
        · simp [List.length_append, hw]

theorem inflBuf_ok (M : InflateModel) (dataLen bufLen inputLen crc : Nat) :
    ∀ fuel c inPos compRem written out n outF,
      out = M.output.take (M.outLen c) → written = out.length →
      inflBuf M dataLen bufLen inputLen crc fuel c inPos compRem written out =
        some (.ok n, outF) →
      outF = M.output ∧ n = M.output.length := by
  intro fuel
  induction fuel with
  | zero => intro c inPos compRem written out n outF _ _ h; exact Option.noConfusion h
  | succ fuel ih =>
    intro c inPos compRem written out n outF hout hw h
    simp only [inflBuf] at h
    split at h
    · split at h
      · exact absurd h (by simp)
      · exact inflStep_ok M crc true bufLen _ _ c _ _ written out n outF
          (fun c' inPos' compRem' written' out' h1 h2 h3 =>
            ih c' inPos' compRem' written' out' n outF h1 h2 h3) hout hw h
    · exact inflStep_ok M crc true bufLen _ _ c _ _ written out n outF
        (fun c' inPos' compRem' written' out' h1 h2 h3 =>
          ih c' inPos' compRem' written' out' n outF h1 h2 h3) hout hw h

theorem inflWriter_ok (M : InflateModel) (dataLen outBufLen inputLen crc : Nat) :
    ∀ fuel c inPos compRem written out n outF,
      out = M.output.take (M.outLen c) → written = out.length →
      inflWriter M dataLen outBufLen inputLen crc fuel c inPos compRem written
        out = some (.ok n, outF) →
      outF = M.output ∧ n = M.output.length := by
  intro fuel
  induction fuel with
  | zero => intro c inPos compRem written out n outF _ _ h; exact Option.noConfusion h
  | succ fuel ih =>
    intro c inPos compRem written out n outF hout hw h
    simp only [inflWriter] at h
    split at h
    · split at h
      · exact absurd h (by simp)
      · exact inflStep_ok M crc false 0 _ _ c _ _ written out n outF
          (fun c' inPos' compRem' written' out' h1 h2 h3 =>
            ih c' inPos' compRem' written' out' n outF h1 h2 h3) hout hw h
    · exact inflStep_ok M crc false 0 _ _ c _ _ written out n outF
        (fun c' inPos' compRem' written' out' h1 h2 h3 =>
          ih c' inPos' compRem' written' out' n outF h1 h2 h3) hout hw h

theorem storedWriterLoop_ok (data : List Nat) (inputLen crc : Nat) :
    ∀ fuel remaining inPos written out n outF,
      storedWriterLoop data inputLen crc fuel remaining inPos written out =
        some (.ok n, outF) →
      outF = out ++ (data.drop inPos).take remaining ∧ n = written + remaining := by
  intro fuel
  induction fuel with
  | zero => intro remaining inPos written out n outF h; exact Option.noConfusion h
  | succ fuel ih =>
    intro remaining inPos written out n outF h
    simp only [storedWriterLoop] at h
    split at h
    · rename_i hrem
      split at h
      · exact absurd h (by simp)
      · simp only [Option.some.injEq, Prod.mk.injEq, Except.ok.injEq] at h
        obtain ⟨hn, hF⟩ := h
        subst hrem
        simp [← hF, ← hn]
    · rename_i hrem
      split at h
      · exact absurd h (by simp)
      · obtain ⟨hF, hn⟩ := ih _ _ _ _ _ _ h
        constructor
        · rw [hF, List.append_assoc]
          have hdd : (data.drop inPos).drop (min remaining inputLen) =
              data.drop (inPos + min remaining inputLen) := by
            rw [List.drop_drop]
          have hsplit : remaining =
              min remaining inputLen + (remaining - min remaining inputLen) := by
            omega
          conv_rhs => rw [hsplit]
          rw [List.take_add, hdd]
        · omega

theorem readFileWithScratch_ok_stored (M : InflateModel)
    (limits : Option ZipLimits) (entry : CdEntry) (hdr : Except ZipError Unit)
    (data : List Nat) (bufLen inputLen fuel n : Nat) (out : List Nat)
    (hm : entry.method = 0)
    (h : readFileWithScratch M limits entry hdr data bufLen inputLen fuel =
      some (.ok n, out)) :
    n = entry.compressed_size ∧ out = data.take entry.compressed_size := by
  simp only [readFileWithScratch, hm] at h
  split at h
  · exact absurd h (by simp)
  · split at h
    · exact absurd h (by simp)
    · split at h
      · exact absurd h (by simp)
      · split at h
        · exact absurd h (by simp)
        · rw [if_pos trivial] at h
          split at h
          · exact absurd h (by simp)
          · split at h
            · exact absurd h (by simp)
            · split at h
              · exact absurd h (by simp)
              · simp only [Option.some.injEq, Prod.mk.injEq, Except.ok.injEq] at h
                exact ⟨h.1.symm, h.2.symm⟩

theorem readFileWithScratch_ok_deflated (M : InflateModel)
    (limits : Option ZipLimits) (entry : CdEntry) (hdr : Except ZipError Unit)
    (data : List Nat) (bufLen inputLen fuel n : Nat) (out : List Nat)
    (hm : entry.method = 8)
    (h : readFileWithScratch M limits entry hdr data bufLen inputLen fuel =
      some (.ok n, out)) :
    out = M.output ∧ n = M.output.length := by
  simp only [readFileWithScratch, hm] at h
  split at h
  · exact absurd h (by simp)
  · split at h
    · exact absurd h (by simp)
    · split at h
      · exact absurd h (by simp)
      · split at h
        · exact absurd h (by simp)
        · rw [if_pos trivial] at h
          exact inflBuf_ok M data.length bufLen inputLen entry.crc32 fuel 0 0
            entry.compressed_size 0 [] n out
            (by rw [M.zero]; rfl) rfl h

theorem readFileToWriterWithScratch_ok_stored (M : InflateModel)
    (limits : Option ZipLimits) (entry : CdEntry) (hdr : Except ZipError Unit)
    (data : List Nat) (inputLen outputLen fuel n : Nat) (out : List Nat)
    (hm : entry.method = 0)
    (h : readFileToWriterWithScratch M limits entry hdr data inputLen
      outputLen fuel = some (.ok n, out)) :
    n = entry.compressed_size ∧ out = data.take entry.compressed_size := by
  simp only [readFileToWriterWithScratch, hm] at h
  split at h
  · exact absurd h (by simp)
  · split at h
    · exact absurd h (by simp)
    · split at h
      · exact absurd h (by simp)
      · rw [if_pos trivial] at h
        obtain ⟨hF, hn⟩ := storedWriterLoop_ok data inputLen entry.crc32 fuel
          entry.compressed_size 0 0 [] n out h
        refine ⟨by omega, ?_⟩
        rw [hF]
        simp

theorem readFileToWriterWithScratch_ok_deflated (M : InflateModel)
    (limits : Option ZipLimits) (entry : CdEntry) (hdr : Except ZipError Unit)
    (data : List Nat) (inputLen outputLen fuel n : Nat) (out : List Nat)
    (hm : entry.method = 8)
    (h : readFileToWriterWithScratch M limits entry hdr data inputLen
      outputLen fuel = some (.ok n, out)) :
    out = M.output ∧ n = M.output.length := by
  simp only [readFileToWriterWithScratch, hm] at h
  split at h
  · exact absurd h (by simp)
  · split at h
    · exact absurd h (by simp)
    · split at h
      · exact absurd h (by simp)
      · rw [if_pos trivial] at h
        exact inflWriter_ok M data.length outputLen inputLen entry.crc32 fuel
          0 0 entry.compressed_size 0 [] n out
          (by rw [M.zero]; rfl) rfl h

/-- C1: for every STORED or DEFLATED entry, whenever the buffered read
(`read_file` / `read_file_with_scratch`) and the streamed read
(`read_file_to_writer` / `read_file_to_writer_with_scratch`) both succeed —
for any output buffer, any non-empty scratch buffers, and any limits — they
return the same byte count and bytewise-identical output bytes. -/
theorem c1_buffered_eq_streamed (M : InflateModel)
    (limits1 limits2 : Option ZipLimits) (entry : CdEntry)
    (hdr1 hdr2 : Except ZipError Unit) (data : List Nat)
    (bufLen inputLen1 fuel1 inputLen2 outputLen2 fuel2 n1 n2 : Nat)
    (out1 out2 : List Nat)
    (hm : entry.method = 0 ∨ entry.method = 8)
    (h1 : readFileWithScratch M limits1 entry hdr1 data bufLen inputLen1
      fuel1 = some (.ok n1, out1))
    (h2 : readFileToWriterWithScratch M limits2 entry hdr2 data inputLen2
      outputLen2 fuel2 = some (.ok n2, out2)) :
    n1 = n2 ∧ out1 = out2 := by
  cases hm with
  | inl hm =>
    obtain ⟨hn1, ho1⟩ := readFileWithScratch_ok_stored M limits1 entry hdr1
      data bufLen inputLen1 fuel1 n1 out1 hm h1
    obtain ⟨hn2, ho2⟩ := readFileToWriterWithScratch_ok_stored M limits2 entry
      hdr2 data inputLen2 outputLen2 fuel2 n2 out2 hm h2
    exact ⟨hn1.trans hn2.symm, ho1.trans ho2.symm⟩
  | inr hm =>
    obtain ⟨ho1, hn1⟩ := readFileWithScratch_ok_deflated M limits1 entry hdr1
      data bufLen inputLen1 fuel1 n1 out1 hm h1
    obtain ⟨ho2, hn2⟩ := readFileToWriterWithScratch_ok_deflated M limits2
      entry hdr2 data inputLen2 outputLen2 fuel2 n2 out2 hm h2
    exact ⟨hn1.trans hn2.symm, ho1.trans ho2.symm⟩

theorem consume_all (M : InflateModel) (csize space : Nat)
    (hend : M.endPos ≤ csize) (hsp : M.output.length ≤ space) :
    M.consume 0 csize space = M.endPos := by
  unfold InflateModel.consume
  rw [Nat.sub_zero, min_eq_right hend]
  apply maxConsume_of_top
  simp only [Nat.zero_add, M.zero, Nat.sub_zero, decide_eq_true_eq]
  rw [← M.total]
  exact hsp

theorem produce_all (M : InflateModel) :
    M.produce 0 M.endPos = M.output := by
  unfold InflateModel.produce
  rw [Nat.zero_add, M.zero, ← M.total]
  simp [List.take_length]

theorem inflBuf_one_shot (M : InflateModel)
    (dataLen bufLen inputLen crc csize fuel : Nat)
    (hcs : 0 < csize) (hin : csize ≤ inputLen) (hdata : csize ≤ dataLen)
    (hbuf : M.output.length ≤ bufLen) (hbpos : 0 < bufLen)
    (hend : M.endPos ≤ csize) :
    inflBuf M dataLen bufLen inputLen crc (fuel + 1) 0 0 csize 0 [] =
      (if M.endPos < csize then some (.error .DecompressError, M.output)
       else if crc ≠ 0 ∧ crc32Hash M.output ≠ crc then
         some (.error .CrcMismatch, M.output)
       else some (.ok M.output.length, M.output)) := by
  simp only [inflBuf]
  rw [if_pos ⟨trivial, hcs⟩, min_eq_left hin, if_neg (by omega)]
  simp only [inflStep, Nat.zero_add, Nat.sub_zero, Nat.sub_self]
  rw [if_neg (by omega)]
  rw [consume_all M csize bufLen hend hbuf, produce_all M]
  rw [if_pos rfl]
  by_cases hlt : M.endPos < csize
  · rw [if_pos (by omega)]
    simp [hlt]
  · rw [if_neg (by omega)]
    simp [hlt]

theorem inflWriter_one_shot (M : InflateModel)
    (dataLen outBufLen inputLen crc csize fuel : Nat)
    (hcs : 0 < csize) (hin : csize ≤ inputLen) (hdata : csize ≤ dataLen)
    (hbuf : M.output.length ≤ outBufLen)
    (hend : M.endPos ≤ csize) :
    inflWriter M dataLen outBufLen inputLen crc (fuel + 1) 0 0 csize 0 [] =
      (if M.endPos < csize then some (.error .DecompressError, M.output)
       else if crc ≠ 0 ∧ crc32Hash M.output ≠ crc then
         some (.error .CrcMismatch, M.output)
       else some (.ok M.output.length, M.output)) := by
  simp only [inflWriter]
  rw [if_pos ⟨trivial, hcs⟩, min_eq_left hin, if_neg (by omega)]
  simp only [inflStep, Nat.zero_add, Nat.sub_zero, Nat.sub_self]
  rw [if_neg (by simp)]
  rw [consume_all M csize outBufLen hend hbuf, produce_all M]
  rw [if_pos rfl]
  by_cases hlt : M.endPos < csize
  · rw [if_pos (by omega)]
    simp [hlt]
  · rw [if_neg (by omega)]
    simp [hlt]

theorem readFileWithScratch_deflate_eval (M : InflateModel) (entry : CdEntry)
    (data : List Nat) (bufLen inputLen fuel : Nat)
    (hm : entry.method = 8) (hcs : 0 < entry.compressed_size)
    (hin : entry.compressed_size ≤ inputLen)
    (hdata : entry.compressed_size ≤ data.length)
    (hbuf1 : entry.uncompressed_size ≤ bufLen)
    (hbuf2 : M.output.length ≤ bufLen) (hbpos : 0 < bufLen)
    (hend : M.endPos ≤ entry.compressed_size) (hf : 0 < fuel) :
    readFileWithScratch M none entry (.ok ()) data bufLen inputLen fuel =
      (if M.endPos < entry.compressed_size then
        some (.error .DecompressError, M.output)
       else if entry.crc32 ≠ 0 ∧ crc32Hash M.output ≠ entry.crc32 then
        some (.error .CrcMismatch, M.output)
       else some (.ok M.output.length, M.output)) := by
  obtain ⟨f, rfl⟩ : ∃ f, fuel = f + 1 := ⟨fuel - 1, by omega⟩
  simp only [readFileWithScratch, hm, limitsExceeded]
  rw [if_neg (by omega), if_neg (by simp), if_neg (by omega), if_pos trivial]
  exact inflBuf_one_shot M data.length bufLen inputLen entry.crc32
    entry.compressed_size f hcs hin hdata hbuf2 hbpos hend

theorem readFileToWriter_deflate_eval (M : InflateModel) (entry : CdEntry)
    (data : List Nat) (inputLen outputLen fuel : Nat)
    (hm : entry.method = 8) (hcs : 0 < entry.compressed_size)
    (hin : entry.compressed_size ≤ inputLen)
    (hdata : entry.compressed_size ≤ data.length)
    (hobuf : M.output.length ≤ outputLen) (hopos : 0 < outputLen)
    (hend : M.endPos ≤ entry.compressed_size) (hf : 0 < fuel) :
    readFileToWriterWithScratch M none entry (.ok ()) data inputLen outputLen
      fuel =
      (if M.endPos < entry.compressed_size then
        some (.error .DecompressError, M.output)
       else if entry.crc32 ≠ 0 ∧ crc32Hash M.output ≠ entry.crc32 then
        some (.error .CrcMismatch, M.output)
       else some (.ok M.output.length, M.output)) := by
  obtain ⟨f, rfl⟩ : ∃ f, fuel = f + 1 := ⟨fuel - 1, by omega⟩
  simp only [readFileToWriterWithScratch, hm, limitsExceeded]
  rw [if_neg (by omega), if_neg (by simp), if_pos trivial]
  exact inflWriter_one_shot M data.length outputLen inputLen entry.crc32
    entry.compressed_size f hcs hin hdata hobuf hend

/-- C6: for a DEFLATED entry read (stated where the scratch input buffer
holds the whole compressed stream and the output capacity covers the full
decompressed output, so the inflater runs in one call), decompression stops
exactly at the DEFLATE stream end: if the stream end lies strictly before
the end of the entry's compressed bytes, both the buffered and the streamed
read fail with `DecompressError`; if it coincides, the CRC32 accumulated
over the produced bytes is verified after stream end, failing with
`CrcMismatch` exactly when the entry's stored CRC is nonzero and
disagrees. -/
theorem c6_stream_end_and_crc (M : InflateModel) (entry : CdEntry)
    (data : List Nat) (bufLen inputLen outputLen fuel1 fuel2 : Nat)
    (hm : entry.method = 8) (hcs : 0 < entry.compressed_size)
    (hin : entry.compressed_size ≤ inputLen)
    (hdata : entry.compressed_size ≤ data.length)
    (hbuf1 : entry.uncompressed_size ≤ bufLen)
    (hbuf2 : M.output.length ≤ bufLen) (hbpos : 0 < bufLen)
    (hobuf : M.output.length ≤ outputLen) (hopos : 0 < outputLen)
    (hend : M.endPos ≤ entry.compressed_size)
    (hf1 : 0 < fuel1) (hf2 : 0 < fuel2) :
    (M.endPos < entry.compressed_size →
      readFileWithScratch M none entry (.ok ()) data bufLen inputLen fuel1 =
        some (.error .DecompressError, M.output) ∧
      readFileToWriterWithScratch M none entry (.ok ()) data inputLen
        outputLen fuel2 = some (.error .DecompressError, M.output)) ∧
    (M.endPos = entry.compressed_size → entry.crc32 ≠ 0 →
      crc32Hash M.output ≠ entry.crc32 →
      readFileWithScratch M none entry (.ok ()) data bufLen inputLen fuel1 =
        some (.error .CrcMismatch, M.output) ∧
      readFileToWriterWithScratch M none entry (.ok ()) data inputLen
        outputLen fuel2 = some (.error .CrcMismatch, M.output)) ∧
    (M.endPos = entry.compressed_size →
      (entry.crc32 = 0 ∨ crc32Hash M.output = entry.crc32) →
      readFileWithScratch M none entry (.ok ()) data bufLen inputLen fuel1 =
        some (.ok M.output.length, M.output) ∧
      readFileToWriterWithScratch M none entry (.ok ()) data inputLen
        outputLen fuel2 = some (.ok M.output.length, M.output)) := by
  rw [readFileWithScratch_deflate_eval M entry data bufLen inputLen fuel1
      hm hcs hin hdata hbuf1 hbuf2 hbpos hend hf1,
    readFileToWriter_deflate_eval M entry data inputLen outputLen fuel2
      hm hcs hin hdata hobuf hopos hend hf2]
  refine ⟨fun hlt => ?_, fun heq hc hne => ?_, fun heq hok => ?_⟩
  · rw [if_pos hlt]
    exact ⟨rfl, rfl⟩
  · have h1 : ¬ M.endPos < entry.compressed_size := by omega
    rw [if_neg h1, if_pos ⟨hc, hne⟩]
    exact ⟨rfl, rfl⟩
  · have h1 : ¬ M.endPos < entry.compressed_size := by omega
    have h2 : ¬ (entry.crc32 ≠ 0 ∧ crc32Hash M.output ≠ entry.crc32) := by
      tauto
    rw [if_neg h1, if_neg h2]
    exact ⟨rfl, rfl⟩

/-- Inflate model with `outLen i = min i 2`, stream end at consumed
position 3, output bytes `[5, 6]`. -/
def exM1 : InflateModel :=
  ⟨fun i => min i 2, 3, [5, 6], fun i j h => by simp only; omega,
   by decide, by decide⟩

theorem c6_stream_end_and_crc_witness :
    readFileWithScratch exM1 none ⟨8, 4, 2, 0, 0, []⟩ (.ok ()) [9, 9, 9, 9]
      2 4 1 = some (.error .DecompressError, [5, 6]) ∧
    readFileWithScratch exM1 none ⟨8, 3, 2, 0, 1, []⟩ (.ok ()) [9, 9, 9]
      2 3 1 = some (.error .CrcMismatch, [5, 6]) ∧
    readFileWithScratch exM1 none ⟨8, 3, 2, 0, 0, []⟩ (.ok ()) [9, 9, 9]
      2 3 1 = some (.ok 2, [5, 6]) ∧
    readFileToWriterWithScratch exM1 none ⟨8, 3, 2, 0, 0, []⟩ (.ok ())
      [9, 9, 9] 3 2 1 = some (.ok 2, [5, 6]) :=
  ⟨((c6_stream_end_and_crc exM1 ⟨8, 4, 2, 0, 0, []⟩ [9, 9, 9, 9] 2 4 2 1 1
      rfl (by decide) (by decide) (by decide) (by decide) (by decide)
      (by decide) (by decide) (by decide) (by decide) (by decide)
      (by decide)).1 (by decide)).1,
   ((c6_stream_end_and_crc exM1 ⟨8, 3, 2, 0, 1, []⟩ [9, 9, 9] 2 3 2 1 1
      rfl (by decide) (by decide) (by decide) (by decide) (by decide)
      (by decide) (by decide) (by decide) (by decide) (by decide)
      (by decide)).2.1 (by decide) (by decide) (by decide)).1,
   ((c6_stream_end_and_crc exM1 ⟨8, 3, 2, 0, 0, []⟩ [9, 9, 9] 2 3 2 1 1
      rfl (by decide) (by decide) (by decide) (by decide) (by decide)
      (by decide) (by decide) (by decide) (by decide) (by decide)
      (by decide)).2.2 (by decide) (Or.inl rfl)).1,
   ((c6_stream_end_and_crc exM1 ⟨8, 3, 2, 0, 0, []⟩ [9, 9, 9] 2 3 2 1 1
      rfl (by decide) (by decide) (by decide) (by decide) (by decide)
      (by decide) (by decide) (by decide) (by decide) (by decide)
      (by decide)).2.2 (by decide) (Or.inl rfl)).2⟩

theorem inflStep_crc (M : InflateModel) (crc : Nat) (checkCap : Bool)
    (bufLen : Nat)
    (recur : Nat → Nat → Nat → Nat → List Nat →
      Option (Except ZipError Nat × List Nat))
    (space : Nat → Nat) (c inPos compRem written : Nat) (out : List Nat)
    (o : List Nat)
    (hrec : ∀ c' inPos' compRem' written' out',
      recur c' inPos' compRem' written' out' = some (.error .CrcMismatch, o) →
      crc ≠ 0 ∧ crc32Hash o ≠ crc)
    (h : inflStep M crc checkCap bufLen recur space c inPos compRem written
      out = some (.error .CrcMismatch, o)) :
    crc ≠ 0 ∧ crc32Hash o ≠ crc := by
  simp only [inflStep] at h
  split at h
  · exact absurd h (by simp)
  · split at h
    · split at h
      · exact absurd h (by simp)
      · split at h
        · rename_i hcrc
          simp only [Option.some.injEq, Prod.mk.injEq] at h
          rw [← h.2]
          exact hcrc
        · exact absurd h (by simp)
    · split at h
      · exact absurd h (by simp)
      · exact hrec _ _ _ _ _ h

theorem inflBuf_crc (M : InflateModel) (dataLen bufLen inputLen crc : Nat) :
    ∀ fuel c inPos compRem written out o,
      inflBuf M dataLen bufLen inputLen crc fuel c inPos compRem written out =
        some (.error .CrcMismatch, o) →
      crc ≠ 0 ∧ crc32Hash o ≠ crc := by
  intro fuel
  induction fuel with
  | zero => intro c inPos compRem written out o h; exact Option.noConfusion h
  | succ fuel ih =>
    intro c inPos compRem written out o h
    simp only [inflBuf] at h
    split at h
    · split at h
      · exact absurd h (by simp)
      · exact inflStep_crc M crc true bufLen _ _ c _ _ written out o
          (fun c' inPos' compRem' written' out' h3 =>
            ih c' inPos' compRem' written' out' o h3) h
    · exact inflStep_crc M crc true bufLen _ _ c _ _ written out o
        (fun c' inPos' compRem' written' out' h3 =>
          ih c' inPos' compRem' written' out' o h3) h

theorem inflWriter_crc (M : InflateModel) (dataLen outBufLen inputLen crc : Nat) :
    ∀ fuel c inPos compRem written out o,
      inflWriter M dataLen outBufLen inputLen crc fuel c inPos compRem written
        out = some (.error .CrcMismatch, o) →
      crc ≠ 0 ∧ crc32Hash o ≠ crc := by
  intro fuel
  induction fuel with
  | zero => intro c inPos compRem written out o h; exact Option.noConfusion h
  | succ fuel ih =>
    intro c inPos compRem written out o h
    simp only [inflWriter] at h
    split at h
    · split at h
      · exact absurd h (by simp)
      · exact inflStep_crc M crc false 0 _ _ c _ _ written out o
          (fun c' inPos' compRem' written' out' h3 =>
            ih c' inPos' compRem' written' out' o h3) h
    · exact inflStep_crc M crc false 0 _ _ c _ _ written out o
        (fun c' inPos' compRem' written' out' h3 =>
          ih c' inPos' compRem' written' out' o h3) h

theorem storedWriterLoop_crc (data : List Nat) (inputLen crc : Nat) :
    ∀ fuel remaining inPos written out o,
      storedWriterLoop data inputLen crc fuel remaining inPos written out =
        some (.error .CrcMismatch, o) →
      crc ≠ 0 ∧ crc32Hash o ≠ crc := by
  intro fuel
  induction fuel with
  | zero => intro remaining inPos written out o h; exact Option.noConfusion h
  | succ fuel ih =>
    intro remaining inPos written out o h
    simp only [storedWriterLoop] at h
    split at h
    · split at h
      · rename_i hcrc
        simp only [Option.some.injEq, Prod.mk.injEq] at h
        rw [← h.2]
        exact hcrc
      · exact absurd h (by simp)
    · split at h
      · exact absurd h (by simp)
      · exact ih _ _ _ _ _ h

/-- C9: the read paths return `CrcMismatch` only when the entry's stored
`crc32` is nonzero and the CRC-32 of the produced bytes differs from it; in
particular an entry whose central-directory `crc32` field is 0 is read with
no CRC verification at all and can never fail with `CrcMismatch`, whatever
its bytes decode to. (`read_file` / `read_file_to_writer` are the same code
with the default scratch sizes.) `hhdr` records that the local-header parse
can only fail with `IoError` or `InvalidFormat`. -/
theorem c9_crc_zero_skips_verification (M : InflateModel)
    (limits : Option ZipLimits) (entry : CdEntry) (hdr : Except ZipError Unit)
    (data : List Nat) (bufLen inputLen outputLen fuel1 fuel2 : Nat)
    (hhdr : ∀ e, hdr = .error e → e = .IoError ∨ e = .InvalidFormat) :
    (∀ o, readFileWithScratch M limits entry hdr data bufLen inputLen fuel1 =
        some (.error .CrcMismatch, o) →
      entry.crc32 ≠ 0 ∧ crc32Hash o ≠ entry.crc32) ∧
    (∀ o, readFileToWriterWithScratch M limits entry hdr data inputLen
        outputLen fuel2 = some (.error .CrcMismatch, o) →
      entry.crc32 ≠ 0 ∧ crc32Hash o ≠ entry.crc32) ∧
    (entry.crc32 = 0 →
      (∀ o, readFileWithScratch M limits entry hdr data bufLen inputLen
        fuel1 ≠ some (.error .CrcMismatch, o)) ∧
      (∀ o, readFileToWriterWithScratch M limits entry hdr data inputLen
        outputLen fuel2 ≠ some (.error .CrcMismatch, o))) := by
  have hbuf : ∀ o, readFileWithScratch M limits entry hdr data bufLen inputLen
      fuel1 = some (.error .CrcMismatch, o) →
      entry.crc32 ≠ 0 ∧ crc32Hash o ≠ entry.crc32 := by
    intro o h
    simp only [readFileWithScratch] at h
    split at h
    · exact absurd h (by simp)
    · split at h
      · exact absurd h (by simp)
      · split at h
        · exact absurd h (by simp)
        · split at h
          · rename_i hv
            simp only [Option.some.injEq, Prod.mk.injEq] at h
            have h1 : hv = ZipError.CrcMismatch := Except.error.inj h.1
            rcases hhdr hv rfl with he | he <;> simp [h1] at he
          · split at h
            · split at h
              · exact absurd h (by simp)
              · split at h
                · exact absurd h (by simp)
                · split at h
                  · rename_i hcrc
                    simp only [Option.some.injEq, Prod.mk.injEq] at h
                    rw [← h.2]
                    exact hcrc
                  · exact absurd h (by simp)
            · split at h
              · exact inflBuf_crc M data.length bufLen inputLen entry.crc32
                  fuel1 0 0 entry.compressed_size 0 [] o h
              · exact absurd h (by simp)
  have hwri : ∀ o, readFileToWriterWithScratch M limits entry hdr data
      inputLen outputLen fuel2 = some (.error .CrcMismatch, o) →
      entry.crc32 ≠ 0 ∧ crc32Hash o ≠ entry.crc32 := by
    intro o h
    simp only [readFileToWriterWithScratch] at h
    split at h
    · exact absurd h (by simp)
    · split at h
      · exact absurd h (by simp)
      · split at h
        · rename_i hv
          simp only [Option.some.injEq, Prod.mk.injEq] at h
          have h1 : hv = ZipError.CrcMismatch := Except.error.inj h.1
          rcases hhdr hv rfl with he | he <;> simp [h1] at he
        · split at h
          · exact storedWriterLoop_crc data inputLen entry.crc32 fuel2
              entry.compressed_size 0 0 [] o h
          · split at h
            · exact inflWriter_crc M data.length outputLen inputLen
                entry.crc32 fuel2 0 0 entry.compressed_size 0 [] o h
            · exact absurd h (by simp)
  refine ⟨hbuf, hwri, fun hz => ⟨fun o h => ?_, fun o h => ?_⟩⟩
  · exact absurd hz (hbuf o h).1
  · exact absurd hz (hwri o h).1

/-- Degenerate inflate model (empty stream, empty output). -/
def exM0 : InflateModel :=
  ⟨fun _ => 0, 0, [], fun i j h => Nat.le_refl 0, rfl, rfl⟩

theorem c1_buffered_eq_streamed_witness :
    readFileWithScratch exM0 none ⟨0, 3, 3, 0, 0, []⟩ (.ok ()) [1, 2, 3]
      3 2 1 = some (.ok 3, [1, 2, 3]) ∧
    readFileToWriterWithScratch exM0 none ⟨0, 3, 3, 0, 0, []⟩ (.ok ())
      [1, 2, 3] 2 2 5 = some (.ok 3, [1, 2, 3]) ∧
    (3 : Nat) = 3 ∧ ([1, 2, 3] : List Nat) = [1, 2, 3] :=
  ⟨by decide, by decide,
   c1_buffered_eq_streamed exM0 none none ⟨0, 3, 3, 0, 0, []⟩ (.ok ())
     (.ok ()) [1, 2, 3] 3 2 1 2 2 5 3 3 [1, 2, 3] [1, 2, 3] (Or.inl rfl)
     (by decide) (by decide)⟩

theorem c9_crc_zero_skips_verification_witness :
    ((2 : Nat) ≠ 0 ∧ crc32Hash [1] ≠ 2) ∧
    readFileWithScratch exM0 none ⟨0, 1, 1, 0, 0, []⟩ (.ok ()) [1] 1 1 1 ≠
      some (.error .CrcMismatch, [1]) :=
  ⟨(c9_crc_zero_skips_verification exM0 none ⟨0, 1, 1, 0, 2, []⟩ (.ok ())
      [1] 1 1 1 1 1 (fun e he => Except.noConfusion he)).1 [1] (by decide),
   ((c9_crc_zero_skips_verification exM0 none ⟨0, 1, 1, 0, 0, []⟩ (.ok ())
      [1] 1 1 1 1 1 (fun e he => Except.noConfusion he)).2.2 rfl).1 [1]⟩

/-- C10 (amended): provided the scratch buffer is non-empty and the
`ZipLimits` size caps (when set) are not exceeded, `read_file` /
`read_file_with_scratch` fail with `BufferTooSmall` whenever the output
buffer is shorter than the entry's uncompressed size — for any method,
before the local header or any entry data is read (the result is the same
for every data region and every local-header outcome) — and, for STORED
entries whose local-header parse succeeds, whenever it is shorter than the
compressed size, again for any data region; in all these cases no output
bytes are produced. -/
theorem c10_buffer_too_small_early (M : InflateModel)
    (limits : Option ZipLimits) (entry : CdEntry) (bufLen inputLen fuel : Nat)
    (hin : 0 < inputLen) (hlim : limitsExceeded limits entry = false) :
    (bufLen < entry.uncompressed_size →
      ∀ hdr data, readFileWithScratch M limits entry hdr data bufLen inputLen
        fuel = some (.error .BufferTooSmall, [])) ∧
    (entry.method = 0 → entry.uncompressed_size ≤ bufLen →
      bufLen < entry.compressed_size →
      ∀ data, readFileWithScratch M limits entry (.ok ()) data bufLen
        inputLen fuel = some (.error .BufferTooSmall, [])) := by
  constructor
  · intro hb hdr data
    simp only [readFileWithScratch, hlim]
    rw [if_neg (by omega), if_neg (by simp), if_pos hb]
  · intro hm hu hb data
    simp only [readFileWithScratch, hlim, hm]
    rw [if_neg (by omega), if_neg (by simp), if_neg (by omega),
      if_pos trivial, if_pos hb]

theorem c10_buffer_too_small_early_witness :
    readFileWithScratch exM0 none ⟨8, 9, 7, 0, 0, []⟩ (.error .IoError)
      [1, 2] 5 3 1 = some (.error .BufferTooSmall, []) ∧
    readFileWithScratch exM0 none ⟨0, 7, 4, 0, 0, []⟩ (.ok ()) [1, 2] 5 3 1 =
      some (.error .BufferTooSmall, []) :=
  ⟨(c10_buffer_too_small_early exM0 none ⟨8, 9, 7, 0, 0, []⟩ 5 3 1
      (by decide) (by decide)).1 (by decide) (.error .IoError) [1, 2],
   (c10_buffer_too_small_early exM0 none ⟨0, 7, 4, 0, 0, []⟩ 5 3 1
      (by decide) (by decide)).2 rfl (by decide) (by decide) [1, 2]⟩

/-- C10 counterexample: with limits `max_file_read_size = 8` and a STORED
entry of uncompressed size 10 read into a 5-byte buffer, the read fails
with `FileTooLarge`, not `BufferTooSmall` — the limits check precedes the
buffer-size check — refuting the claim that a too-short output buffer
always yields `BufferTooSmall`. -/
theorem c10_counterexample :
    readFileWithScratch exM0 (some ⟨8, 8, false, 65557⟩) ⟨0, 10, 10, 0, 0, []⟩
      (.ok ()) [] 5 1 1 = some (.error .FileTooLarge, []) ∧
    readFileWithScratch exM0 (some ⟨8, 8, false, 65557⟩) ⟨0, 10, 10, 0, 0, []⟩
      (.ok ()) [] 5 1 1 ≠ some (.error .BufferTooSmall, []) := by
  constructor
  · decide
  · decide

/-- Byte encoding of a list of `(header_id, payload)` extra fields. -/
def extrasBytes : List (Nat × List Nat) → List Nat
  | [] => []
  | f :: fs => u16le f.1 ++ u16le f.2.length ++ f.2 ++ extrasBytes fs

/-- Encoded length of a list of extra fields. -/
def extrasLen : List (Nat × List Nat) → Nat
  | [] => 0
  | f :: fs => 4 + f.2.length + extrasLen fs

theorem extrasBytes_length (fields : List (Nat × List Nat)) :
    (extrasBytes fields).length = extrasLen fields := by
  induction fields with
  | nil => rfl
  | cons f fs ih =>
    simp [extrasBytes, extrasLen, u16le, ih]
    omega

theorem fromLe_u16 (n : Nat) (h : n < 65536) : fromLe (u16le n) = n := by
  simp [u16le, fromLe]
  omega

theorem readExact_append (pre mid suf : List Nat) (k n : Nat)
    (h : k + n ≤ mid.length) :
    readExact (pre ++ mid ++ suf) (pre.length + k) n =
      some ((mid.drop k).take n) := by
  unfold readExact
  rw [if_pos (by simp only [List.length_append]; omega)]
  congr 1
  rw [List.append_assoc, List.drop_append_eq_append_drop,
    List.drop_eq_nil_of_le (by omega), Nat.add_sub_cancel_left,
    List.nil_append, List.drop_append_eq_append_drop,
    List.take_append_eq_append_take]
  have h1 : k ≤ mid.length := by omega
  rw [Nat.sub_eq_zero_of_le h1]
  have h2 : n ≤ (mid.drop k).length := by
    simp only [List.length_drop]
    omega
  rw [Nat.sub_eq_zero_of_le h2, List.take_zero, List.append_nil]

/-- Definition following the claim's words: the 64-bit values supplied by a
ZIP64 extended-information extra-field payload, taken in order —
uncompressed size, compressed size, local-header offset — for exactly the
base fields that hold the `0xFFFFFFFF` sentinel; `none` when the payload
does not supply a needed value. -/
def zip64FieldValues (payload : List Nat) (nu nc no : Bool)
    (us cs off : Nat) : Option (Nat × Nat × Nat) :=
  let offU := if nu then 8 else 0
  let offC := if nc then 8 else 0
  if nu ∧ payload.length < 8 then none
  else if nc ∧ payload.length - offU < 8 then none
  else if no ∧ payload.length - offU - offC < 8 then none
  else some (if nu then readU64 payload 0 else us,
             if nc then readU64 payload offU else cs,
             if no then readU64 payload (offU + offC) else off)

/-- Definition following the claim's words: each 32-bit base field equal to
`0xFFFFFFFF` is replaced by the corresponding 64-bit value taken, in that
order, from the ZIP64 extended-information extra field (`header_id
0x0001`); `none` (an `InvalidFormat` parse) when a sentinel is present but
the extra fields do not supply its 64-bit value. -/
def zip64Upgrade (fields : List (Nat × List Nat)) (nu nc no : Bool)
    (us cs off : Nat) : Option (Nat × Nat × Nat) :=
  if nu = false ∧ nc = false ∧ no = false then some (us, cs, off)
  else
    match fields.find? (fun f => f.1 == 1) with
    | none => none
    | some f => zip64FieldValues f.2 nu nc no us cs off

theorem parseExtra_no1 (file : List Nat) (nu nc no : Bool) :
    ∀ (fields : List (Nat × List Nat)) (fuel : Nat) (pre suf : List Nat)
      (u c o : Nat) (gu gc go : Bool),
      file = pre ++ extrasBytes fields ++ suf →
      fields.length ≤ fuel →
      (∀ f ∈ fields, f.1 < 65536) →
      (∀ f ∈ fields, f.2.length < 65536) →
      (∀ f ∈ fields, f.1 ≠ 1) →
      parseExtra file nu nc no fuel pre.length (extrasLen fields) u c o
        gu gc go =
        .ok (u, c, o, gu, gc, go, pre.length + extrasLen fields) := by
  intro fields
  induction fields with
  | nil =>
    intro fuel pre suf u c o gu gc go hdecomp hfuel hids hsz hno1
    rw [parseExtra.eq_def]
    dsimp only
    rw [show extrasLen ([] : List (Nat × List Nat)) = 0 from rfl]
    simp
  | cons f fs ih =>
    intro fuel pre suf u c o gu gc go hdecomp hfuel hids hsz hno1
    obtain ⟨id, pl⟩ := f
    have hlen : extrasLen ((id, pl) :: fs) = 4 + pl.length + extrasLen fs := rfl
    have hid : id < 65536 := hids _ (List.mem_cons_self _ _)
    have hplen : pl.length < 65536 := hsz _ (List.mem_cons_self _ _)
    have hidne : id ≠ 1 := hno1 _ (List.mem_cons_self _ _)
    cases fuel with
    | zero => simp at hfuel
    | succ fuel =>
      have hre : readExact file pre.length 4 =
          some (u16le id ++ u16le pl.length) := by
        have hb := readExact_append pre (extrasBytes ((id, pl) :: fs)) suf 0 4
          (by rw [extrasBytes_length, hlen]; omega)
        rw [Nat.add_zero] at hb
        rw [hdecomp, hb]
        rfl
      have hid0 : readU16 (u16le id ++ u16le pl.length) 0 = id := by
        rw [readU16, List.drop_zero,
          show (u16le id ++ u16le pl.length).take 2 = u16le id from rfl,
          fromLe_u16 id hid]
      have hfs2 : readU16 (u16le id ++ u16le pl.length) 2 = pl.length := by
        rw [readU16,
          show (u16le id ++ u16le pl.length).drop 2 = u16le pl.length from rfl,
          show (u16le pl.length).take 2 = u16le pl.length from rfl,
          fromLe_u16 _ hplen]
      rw [parseExtra.eq_def]
      dsimp only
      rw [if_neg (by rw [hlen]; omega), hre]
      simp only [hid0, hfs2]
      rw [if_neg (by omega), if_neg hidne]
      have harith : extrasLen ((id, pl) :: fs) - 4 - pl.length =
          extrasLen fs := by omega
      rw [harith]
      have hdecomp' : file =
          (pre ++ (u16le id ++ u16le pl.length ++ pl)) ++
            extrasBytes fs ++ suf := by
        rw [hdecomp]
        simp [extrasBytes, List.append_assoc]
      have hlen' : (pre ++ (u16le id ++ u16le pl.length ++ pl)).length =
          pre.length + 4 + pl.length := by
        simp [u16le]
        omega
      have hrec := ih fuel (pre ++ (u16le id ++ u16le pl.length ++ pl)) suf
        u c o gu gc go hdecomp'
        (by simp only [List.length_cons] at hfuel; omega)
        (fun g hg => hids g (List.mem_cons_of_mem _ hg))
        (fun g hg => hsz g (List.mem_cons_of_mem _ hg))
        (fun g hg => hno1 g (List.mem_cons_of_mem _ hg))
      rw [hlen'] at hrec
      rw [hrec, hlen,
        show pre.length + 4 + pl.length + extrasLen fs =
          pre.length + (4 + pl.length + extrasLen fs) from by omega]

theorem parseExtra_upgrade (file : List Nat) (nu nc no : Bool) :
    ∀ (fields : List (Nat × List Nat)) (fuel : Nat) (pre suf : List Nat)
      (u c o : Nat),
      file = pre ++ extrasBytes fields ++ suf →
      fields.length ≤ fuel →
      (∀ f ∈ fields, f.1 < 65536) →
      (∀ f ∈ fields, f.2.length < 65536) →
      (fields.filter (fun f => f.1 == 1)).length ≤ 1 →
      parseExtra file nu nc no fuel pre.length (extrasLen fields) u c o
        false false false =
        match fields.find? (fun f => f.1 == 1) with
        | none =>
          .ok (u, c, o, false, false, false, pre.length + extrasLen fields)
        | some f =>
          match zip64FieldValues f.2 nu nc no u c o with
          | none => .error .InvalidFormat
          | some (u2, c2, o2) =>
            .ok (u2, c2, o2, nu, nc, no, pre.length + extrasLen fields) := by
  intro fields
  induction fields with
  | nil =>
    intro fuel pre suf u c o hdecomp hfuel hids hsz hone
    rw [parseExtra.eq_def]
    dsimp only
    rw [show extrasLen ([] : List (Nat × List Nat)) = 0 from rfl]
    simp [List.find?]
  | cons f fs ih =>
    intro fuel pre suf u c o hdecomp hfuel hids hsz hone
    obtain ⟨id, pl⟩ := f
    have hlen : extrasLen ((id, pl) :: fs) = 4 + pl.length + extrasLen fs := rfl
    have hid : id < 65536 := hids _ (List.mem_cons_self _ _)
    have hplen : pl.length < 65536 := hsz _ (List.mem_cons_self _ _)
    cases fuel with
    | zero => simp at hfuel
    | succ fuel =>
      have hre : readExact file pre.length 4 =
          some (u16le id ++ u16le pl.length) := by
        have hb := readExact_append pre (extrasBytes ((id, pl) :: fs)) suf 0 4
          (by rw [extrasBytes_length, hlen]; omega)
        rw [Nat.add_zero] at hb
        rw [hdecomp, hb]
        rfl
      have hid0 : readU16 (u16le id ++ u16le pl.length) 0 = id := by
        rw [readU16, List.drop_zero,
          show (u16le id ++ u16le pl.length).take 2 = u16le id from rfl,
          fromLe_u16 id hid]
      have hfs2 : readU16 (u16le id ++ u16le pl.length) 2 = pl.length := by
        rw [readU16,
          show (u16le id ++ u16le pl.length).drop 2 = u16le pl.length from rfl,
          show (u16le pl.length).take 2 = u16le pl.length from rfl,
          fromLe_u16 _ hplen]
      rw [parseExtra.eq_def]
      dsimp only
      rw [if_neg (by rw [hlen]; omega), hre]
      simp only [hid0, hfs2]
      rw [if_neg (by omega)]
      by_cases hid1 : id = 1
      · -- the ZIP64 field: process it, then skip the rest of the fields
        rw [if_pos hid1]
        have hfind : (((id, pl) :: fs).find? (fun f => f.1 == 1)) =
            some (id, pl) := by
          simp [List.find?, hid1]
        rw [hfind]
        dsimp only
        have hnofs : ∀ g ∈ fs, g.1 ≠ 1 := by
          intro g hg hg1
          have hmem : g ∈ fs.filter (fun f => f.1 == 1) :=
            List.mem_filter.mpr ⟨hg, by simp [hg1]⟩
          have hpos : 0 < (fs.filter (fun f => f.1 == 1)).length :=
            List.length_pos.mpr (List.ne_nil_of_mem hmem)
          have hcons : (((id, pl) :: fs).filter (fun f => f.1 == 1)) =
              (id, pl) :: fs.filter (fun f => f.1 == 1) := by
            simp [List.filter_cons, hid1]
          rw [hcons] at hone
          simp only [List.length_cons] at hone
          omega
        have hfile2 : file = (pre ++ (u16le id ++ u16le pl.length)) ++ pl ++
            (extrasBytes fs ++ suf) := by
          rw [hdecomp]
          simp [extrasBytes, List.append_assoc]
        have hpre4 : (pre ++ (u16le id ++ u16le pl.length)).length =
            pre.length + 4 := by
          simp [u16le]
        have hval : ∀ k, k + 8 ≤ pl.length →
            readExact file (pre.length + 4 + k) 8 =
              some ((pl.drop k).take 8) := by
          intro k hk
          rw [hfile2, ← hpre4]
          exact readExact_append _ pl _ k 8 hk
        by_cases hb1 : nu = true ∧ pl.length < 8
        · rw [if_pos hb1]
          have hz : zip64FieldValues pl nu nc no u c o = none := by
            unfold zip64FieldValues
            rw [if_pos hb1]
          rw [hz]
        · rw [if_neg hb1]
          have hvu : (if nu = true then readExact file (pre.length + 4) 8
              else some []) =
              some (if nu = true then (pl.drop 0).take 8 else []) := by
            by_cases hnu : nu = true
            · have h9 : ¬ pl.length < 8 := fun hlt => hb1 ⟨hnu, hlt⟩
              simp only [hnu, if_true]
              have h10 := hval 0 (by omega)
              rw [Nat.add_zero] at h10
              rw [h10]
            · simp [hnu]
          rw [hvu]
          dsimp only
          by_cases hb2 : nc = true ∧
              pl.length - (if nu = true then 8 else 0) < 8
          · rw [if_pos hb2]
            have hz : zip64FieldValues pl nu nc no u c o = none := by
              unfold zip64FieldValues
              rw [if_neg hb1, if_pos hb2]
            rw [hz]
          · rw [if_neg hb2]
            have hvc : (if nc = true then
                readExact file (pre.length + 4 + (if nu = true then 8 else 0))
                  8 else some []) =
                some (if nc = true then
                  (pl.drop (if nu = true then 8 else 0)).take 8 else []) := by
              by_cases hnc : nc = true
              · simp only [hnc, if_true]
                rw [hval (if nu = true then 8 else 0) (by
                  have h9 : ¬ (pl.length - (if nu = true then 8 else 0) < 8) :=
                    fun hlt => hb2 ⟨hnc, hlt⟩
                  cases nu <;> simp at h9 ⊢ <;> omega)]
              · simp [hnc]
            rw [hvc]
            dsimp only
            by_cases hb3 : no = true ∧
                pl.length - (if nu = true then 8 else 0) -
                  (if nc = true then 8 else 0) < 8
            · rw [if_pos hb3]
              have hz : zip64FieldValues pl nu nc no u c o = none := by
                unfold zip64FieldValues
                rw [if_neg hb1, if_neg hb2, if_pos hb3]
              rw [hz]
            · rw [if_neg hb3]
              have hvo : (if no = true then
                  readExact file (pre.length + 4 +
                    (if nu = true then 8 else 0) +
                    (if nc = true then 8 else 0)) 8 else some []) =
                  some (if no = true then
                    (pl.drop ((if nu = true then 8 else 0) +
                      (if nc = true then 8 else 0))).take 8 else []) := by
                by_cases hno : no = true
                · simp only [hno, if_true]
                  rw [show pre.length + 4 + (if nu = true then 8 else 0) +
                      (if nc = true then 8 else 0) =
                      pre.length + 4 + ((if nu = true then 8 else 0) +
                        (if nc = true then 8 else 0)) from by omega]
                  rw [hval ((if nu = true then 8 else 0) +
                    (if nc = true then 8 else 0)) (by
                    have h9 : ¬ (pl.length - (if nu = true then 8 else 0) -
                        (if nc = true then 8 else 0) < 8) :=
                      fun hlt => hb3 ⟨hno, hlt⟩
                    cases nu <;> cases nc <;> simp at h9 ⊢ <;> omega)]
                · simp [hno]
              rw [hvo]
              dsimp only
              have harith : extrasLen ((id, pl) :: fs) - 4 - pl.length =
                  extrasLen fs := by omega
              rw [harith]
              have hdecomp' : file =
                  (pre ++ (u16le id ++ u16le pl.length ++ pl)) ++
                    extrasBytes fs ++ suf := by
                rw [hdecomp]
                simp [extrasBytes, List.append_assoc]
              have hlen' :
                  (pre ++ (u16le id ++ u16le pl.length ++ pl)).length =
                  pre.length + 4 + pl.length := by
                simp [u16le]
                omega
              have hrec := parseExtra_no1 file nu nc no fs fuel
                (pre ++ (u16le id ++ u16le pl.length ++ pl)) suf
                (if nu = true then fromLe ((pl.drop 0).take 8) else u)
                (if nc = true then
                  fromLe ((pl.drop (if nu = true then 8 else 0)).take 8)
                  else c)
                (if no = true then
                  fromLe ((pl.drop ((if nu = true then 8 else 0) +
                    (if nc = true then 8 else 0))).take 8) else o)
                (nu || false) (nc || false) (no || false) hdecomp'
                (by simp only [List.length_cons] at hfuel; omega)
                (fun g hg => hids g (List.mem_cons_of_mem _ hg))
                (fun g hg => hsz g (List.mem_cons_of_mem _ hg)) hnofs
              rw [hlen'] at hrec
              have hz : zip64FieldValues pl nu nc no u c o =
                  some (if nu = true then readU64 pl 0 else u,
                    if nc = true then
                      readU64 pl (if nu = true then 8 else 0) else c,
                    if no = true then
                      readU64 pl ((if nu = true then 8 else 0) +
                        (if nc = true then 8 else 0)) else o) := by
                unfold zip64FieldValues
                rw [if_neg hb1, if_neg hb2, if_neg hb3]
              have hcollapse : ∀ (b : Bool) (x : List Nat) (y : Nat),
                  (if b = true then fromLe (if b = true then x else [])
                    else y) = (if b = true then fromLe x else y) := by
                intro b x y
                cases b <;> simp
              simp only [hcollapse]
              rw [hrec, hz]
              simp only [Bool.or_false]
              rw [hlen, show pre.length + 4 + pl.length + extrasLen fs =
                pre.length + (4 + pl.length + extrasLen fs) from by omega]
              rfl
      · -- not the ZIP64 field: skip it
        rw [if_neg hid1]
        have harith : extrasLen ((id, pl) :: fs) - 4 - pl.length =
            extrasLen fs := by omega
        rw [harith]
        have hdecomp' : file =
            (pre ++ (u16le id ++ u16le pl.length ++ pl)) ++
              extrasBytes fs ++ suf := by
          rw [hdecomp]
          simp [extrasBytes, List.append_assoc]
        have hlen' : (pre ++ (u16le id ++ u16le pl.length ++ pl)).length =
            pre.length + 4 + pl.length := by
          simp [u16le]
          omega
        have hone' : (fs.filter (fun f => f.1 == 1)).length ≤ 1 := by
          have hcons : (((id, pl) :: fs).filter (fun f => f.1 == 1)) =
              fs.filter (fun f => f.1 == 1) := by
            simp [List.filter_cons, hid1]
          rw [hcons] at hone
          exact hone
        have hrec := ih fuel (pre ++ (u16le id ++ u16le pl.length ++ pl)) suf
          u c o hdecomp' (by simp only [List.length_cons] at hfuel; omega)
          (fun g hg => hids g (List.mem_cons_of_mem _ hg))
          (fun g hg => hsz g (List.mem_cons_of_mem _ hg)) hone'
        rw [hlen'] at hrec
        rw [hrec]
        have hfind : (((id, pl) :: fs).find? (fun f => f.1 == 1)) =
            fs.find? (fun f => f.1 == 1) := by
          simp only [List.find?]
          rw [show (id == 1) = false from by simp [hid1]]
        rw [hfind, hlen]
        cases hf : fs.find? (fun f => f.1 == 1) with
        | none =>
          simp only
          rw [show pre.length + 4 + pl.length + extrasLen fs =
            pre.length + (4 + pl.length + extrasLen fs) from by omega]
        | some g =>
          simp only
          cases hz : zip64FieldValues g.2 nu nc no u c o with
          | none => rfl
          | some v =>
            obtain ⟨v1, v2, v3⟩ := v
            simp only
            rw [show pre.length + 4 + pl.length + extrasLen fs =
              pre.length + (4 + pl.length + extrasLen fs) from by omega]

theorem length_le_extrasLen (fields : List (Nat × List Nat)) :
    fields.length ≤ extrasLen fields := by
  induction fields with
  | nil => exact Nat.le_refl 0
  | cons f fs ih =>
    simp only [List.length_cons, extrasLen]
    omega

/-- C5: for a central-directory record whose extra region encodes a list of
extra fields with at most one ZIP64 extended-information field (`header_id
0x0001`), `read_cd_entry` yields exactly the claim's upgrade: every 32-bit
base field equal to `0xFFFFFFFF` (uncompressed size, compressed size,
local-header offset, in that order) is replaced by the corresponding 64-bit
value from the 0x0001 field, and if any sentinel's 64-bit value is not
supplied the parse fails with `InvalidFormat`. -/
theorem c5_zip64_field_upgrade (file : List Nat) (pos : Nat)
    (s4 buf name pre suf : List Nat) (fields : List (Nat × List Nat))
    (hsig : readExact file pos 4 = some s4)
    (hsigv : fromLe s4 = sigCdEntry)
    (hbuf : readExact file (pos + 4) 42 = some buf)
    (hnl : 0 < readU16 buf 24) (hnl2 : readU16 buf 24 ≤ 256)
    (hname : readExact file (pos + 46) (readU16 buf 24) = some name)
    (hdecomp : file = pre ++ extrasBytes fields ++ suf)
    (hpre : pre.length = pos + 46 + readU16 buf 24)
    (hext : readU16 buf 26 = extrasLen fields)
    (hids : ∀ f ∈ fields, f.1 < 65536)
    (hsz : ∀ f ∈ fields, f.2.length < 65536)
    (hone : (fields.filter (fun f => f.1 == 1)).length ≤ 1) :
    readCdEntry file pos =
      match zip64Upgrade fields (readU32 buf 20 == 4294967295)
          (readU32 buf 16 == 4294967295) (readU32 buf 38 == 4294967295)
          (readU32 buf 20) (readU32 buf 16) (readU32 buf 38) with
      | some (u2, c2, o2) =>
        .ok (some ({ method := readU16 buf 6, compressed_size := c2,
                     uncompressed_size := u2, local_header_offset := o2,
                     crc32 := readU32 buf 12, filename := utf8Lossy name },
          pos + 46 + readU16 buf 24 + extrasLen fields + readU16 buf 28))
      | none => .error .InvalidFormat := by
  unfold readCdEntry
  rw [hsig]
  dsimp only
  rw [if_neg (by simp [hsigv]), hbuf]
  dsimp only
  rw [if_pos ⟨hnl, hnl2⟩, hname]
  dsimp only
  rw [hext, ← hpre]
  rw [parseExtra_upgrade file _ _ _ fields (extrasLen fields) pre suf
    (readU32 buf 20) (readU32 buf 16) (readU32 buf 38) hdecomp
    (length_le_extrasLen fields) hids hsz hone]
  rw [zip64Upgrade]
  cases hf : fields.find? (fun f => f.1 == 1) with
  | none =>
    dsimp only
    by_cases hall : (readU32 buf 20 == 4294967295) = false ∧
        (readU32 buf 16 == 4294967295) = false ∧
        (readU32 buf 38 == 4294967295) = false
    · rw [if_pos hall]
      obtain ⟨h1, h2, h3⟩ := hall
      simp only [h1, h2, h3, Bool.not_false, Bool.and_true, Bool.false_or,
        Bool.or_false, Bool.false_and]
      rw [hpre]
      rfl
    · rw [if_neg hall]
      dsimp only
      rw [if_pos ?cnd]
      case cnd =>
        rcases Bool.eq_false_or_eq_true (readU32 buf 20 == 4294967295)
          with h1 | h1 <;>
        rcases Bool.eq_false_or_eq_true (readU32 buf 16 == 4294967295)
          with h2 | h2 <;>
        rcases Bool.eq_false_or_eq_true (readU32 buf 38 == 4294967295)
          with h3 | h3 <;>
        simp [h1, h2, h3] at hall ⊢
  | some f =>
    dsimp only
    cases hz : zip64FieldValues f.2 (readU32 buf 20 == 4294967295)
        (readU32 buf 16 == 4294967295) (readU32 buf 38 == 4294967295)
        (readU32 buf 20) (readU32 buf 16) (readU32 buf 38) with
    | none =>
      dsimp only
      by_cases hall : (readU32 buf 20 == 4294967295) = false ∧
          (readU32 buf 16 == 4294967295) = false ∧
          (readU32 buf 38 == 4294967295) = false
      · exfalso
        obtain ⟨h1, h2, h3⟩ := hall
        rw [h1, h2, h3] at hz
        rw [show zip64FieldValues f.2 false false false (readU32 buf 20)
            (readU32 buf 16) (readU32 buf 38) =
            some (readU32 buf 20, readU32 buf 16, readU32 buf 38) from by
          unfold zip64FieldValues
          simp] at hz
        exact Option.noConfusion hz
      · rw [if_neg hall]
    | some v =>
      obtain ⟨v1, v2, v3⟩ := v
      dsimp only
      simp only [Bool.and_not_self, Bool.or_self, Bool.or_false,
        Bool.false_or]
      by_cases hall : (readU32 buf 20 == 4294967295) = false ∧
          (readU32 buf 16 == 4294967295) = false ∧
          (readU32 buf 38 == 4294967295) = false
      · rw [if_pos hall]
        obtain ⟨h1, h2, h3⟩ := hall
        rw [h1, h2, h3] at hz
        rw [show zip64FieldValues f.2 false false false (readU32 buf 20)
            (readU32 buf 16) (readU32 buf 38) =
            some (readU32 buf 20, readU32 buf 16, readU32 buf 38) from by
          unfold zip64FieldValues
          simp] at hz
        injection hz with hz
        injection hz with ha hz
        injection hz with hb hc
        dsimp only
        rw [hpre, ← ha, ← hb, ← hc]
        rfl
      · rw [if_neg hall]
        dsimp only
        rw [hpre]
        rfl

def exBufC5 : List Nat :=
  [0, 0, 0, 0, 0, 0, 0, 0, 0, 0, 0, 0,
   0, 0, 0, 0,
   255, 255, 255, 255,
   255, 255, 255, 255,
   1, 0, 28, 0, 0, 0,
   0, 0, 0, 0, 0, 0, 0, 0,
   255, 255, 255, 255]

def exFieldsC5 : List (Nat × List Nat) :=
  [(1, u64le 5 ++ u64le 7 ++ u64le 9)]

def exPreC5 : List Nat := [80, 75, 1, 2] ++ exBufC5 ++ [97]

def exFileC5 : List Nat := exPreC5 ++ extrasBytes exFieldsC5 ++ []

theorem c5_zip64_field_upgrade_witness :
    readCdEntry exFileC5 0 =
      .ok (some ({ method := 0, compressed_size := 7, uncompressed_size := 5,
                   local_header_offset := 9, crc32 := 0,
                   filename := [97] }, 75)) := by
  rw [c5_zip64_field_upgrade exFileC5 0 [80, 75, 1, 2] exBufC5 [97] exPreC5
    [] exFieldsC5 (by decide) (by decide) (by decide) (by decide) (by decide)
    (by decide) (by decide) (by decide) (by decide) (by decide) (by decide)
    (by decide)]
  decide

/-- ASCII lowercasing of one Unicode scalar value
(`u8::to_ascii_lowercase`). -/
def asciiLower (b : Nat) : Nat := if 65 ≤ b ∧ b ≤ 90 then b + 32 else b

/-- `str::eq_ignore_ascii_case` on scalar-value lists. -/
def eqIgnoreAsciiCase (a b : List Nat) : Bool :=
  a.map asciiLower == b.map asciiLower

/-- `str::starts_with('/')`. -/
def leadSlash : List Nat → Bool
  | 47 :: _ => true
  | _ => false

/-- The entry-name comparison of `StreamingZip::get_entry` (source lines
494-499): exact match, ASCII-case-insensitive match, or either side
stripped of one leading slash. -/
def nameMatches (fname name : List Nat) : Bool :=
  fname == name ||
  eqIgnoreAsciiCase fname name ||
  (leadSlash name && eqIgnoreAsciiCase fname (name.drop 1)) ||
  (leadSlash fname && eqIgnoreAsciiCase (fname.drop 1) name)

/-- `StreamingZip::get_entry`. -/
def getEntry (entries : List CdEntry) (name : List Nat) : Option CdEntry :=
  entries.find? (fun e => nameMatches e.filename name)

/-- The scalar values of "mimetype". -/
def mimetypeName : List Nat := [109, 105, 109, 101, 116, 121, 112, 101]

/-- The scalar values of "application/epub+zip". -/
def epubMime : List Nat :=
  [97, 112, 112, 108, 105, 99, 97, 116, 105, 111, 110, 47, 101, 112, 117,
   98, 43, 122, 105, 112]

/-- "mimetype file not found in archive". -/
def notFoundMsg : List Nat :=
  [109, 105, 109, 101, 116, 121, 112, 101, 32, 102, 105, 108, 101, 32,
   110, 111, 116, 32, 102, 111, 117, 110, 100, 32, 105, 110, 32, 97, 114,
   99, 104, 105, 118, 101]

/-- "not found". -/
def notFoundSub : List Nat := [110, 111, 116, 32, 102, 111, 117, 110, 100]

/-- "mimetype file too large". -/
def tooLargeMsg : List Nat :=
  [109, 105, 109, 101, 116, 121, 112, 101, 32, 102, 105, 108, 101, 32,
   116, 111, 111, 32, 108, 97, 114, 103, 101]

/-- "mimetype file is not valid UTF-8". -/
def notUtf8Msg : List Nat :=
  [109, 105, 109, 101, 116, 121, 112, 101, 32, 102, 105, 108, 101, 32,
   105, 115, 32, 110, 111, 116, 32, 118, 97, 108, 105, 100, 32, 85, 84,
   70, 45, 56]

/-- "expected 'application/epub+zip', got '" — the prefix of the wrong-
content message; the full message appends the content and a closing
quote. -/
def wrongPre : List Nat :=
  [101, 120, 112, 101, 99, 116, 101, 100, 32, 39, 97, 112, 112, 108, 105,
   99, 97, 116, 105, 111, 110, 47, 101, 112, 117, 98, 43, 122, 105, 112,
   39, 44, 32, 103, 111, 116, 32, 39]

/-- `StreamingZip::validate_mimetype` (source lines 855-895). The archive
state is the parsed entry list plus, for the single `read_file` call on the
found entry, the same read context as `readFile` (inflate model, local
header outcome, entry data bytes, loop fuel). The output buffer is the
zero-filled `vec![0u8; size]`, so the decoded slice is the bytes written
padded with zeros up to `bytes_read`. -/
def validateMimetype (entries : List CdEntry) (limits : Option ZipLimits)
    (M : InflateModel) (hdr : Except ZipError Unit) (data : List Nat)
    (fuel : Nat) : Option (Except ZipError Unit) :=
  match getEntry entries mimetypeName with
  | none => some (.error (.InvalidMimetype notFoundMsg))
  | some entry =>
    if (match limits with
        | some l => decide (l.max_mimetype_size < entry.uncompressed_size)
        | none => false) then
      some (.error (.InvalidMimetype tooLargeMsg))
    else
      match readFile M limits entry hdr data entry.uncompressed_size fuel with
      | none => none
      | some (.error e, _) => some (.error e)
      | some (.ok n, out) =>
        let content := (out ++
          List.replicate (entry.uncompressed_size - out.length) 0).take n
        match utf8Decode content with
        | none => some (.error (.InvalidMimetype notUtf8Msg))
        | some s =>
          if s = epubMime then some (.ok ())
          else some (.error (.InvalidMimetype (wrongPre ++ s ++ [39])))

/-- `StreamingZip::is_valid_epub` = `validate_mimetype().is_ok()`. -/
def isValidEpub (entries : List CdEntry) (limits : Option ZipLimits)
    (M : InflateModel) (hdr : Except ZipError Unit) (data : List Nat)
    (fuel : Nat) : Option Bool :=
  match validateMimetype entries limits M hdr data fuel with
  | none => none
  | some (.ok _) => some true
  | some (.error _) => some false

/-- C7 (amended): `validate_mimetype` (and `is_valid_epub`) succeed exactly
when a `mimetype` entry exists whose read content is exactly the UTF-8
bytes of "application/epub+zip": when the entry is absent the result is
`InvalidMimetype` with the not-found message (which contains "not found");
a success implies the entry exists and its content is exactly the target;
an existing entry whose content is the target succeeds; an existing entry
whose content is valid UTF-8 but decodes to something other than the
target fails with `InvalidMimetype` whose message contains the decoded
content; an existing entry whose content is not valid UTF-8 fails with
`InvalidMimetype` carrying the fixed not-valid-UTF-8 message (which does
not contain the content — the refutation of the original claim). -/
theorem c7_validate_mimetype (entries : List CdEntry)
    (limits : Option ZipLimits) (M : InflateModel)
    (hdr : Except ZipError Unit) (data : List Nat) (fuel : Nat) :
    (getEntry entries mimetypeName = none →
      validateMimetype entries limits M hdr data fuel =
        some (.error (.InvalidMimetype notFoundMsg)) ∧
      ∃ x y, notFoundMsg = x ++ notFoundSub ++ y) ∧
    (validateMimetype entries limits M hdr data fuel = some (.ok ()) →
      ∃ entry n out, getEntry entries mimetypeName = some entry ∧
        readFile M limits entry hdr data entry.uncompressed_size fuel =
          some (.ok n, out) ∧
        (out ++ List.replicate (entry.uncompressed_size - out.length)
          0).take n = epubMime) ∧
    (∀ entry n out, getEntry entries mimetypeName = some entry →
      (∀ l, limits = some l →
        entry.uncompressed_size ≤ l.max_mimetype_size) →
      readFile M limits entry hdr data entry.uncompressed_size fuel =
        some (.ok n, out) →
      (out ++ List.replicate (entry.uncompressed_size - out.length)
        0).take n = epubMime →
      validateMimetype entries limits M hdr data fuel = some (.ok ()) ∧
      isValidEpub entries limits M hdr data fuel = some true) ∧
    (∀ entry n out s, getEntry entries mimetypeName = some entry →
      (∀ l, limits = some l →
        entry.uncompressed_size ≤ l.max_mimetype_size) →
      readFile M limits entry hdr data entry.uncompressed_size fuel =
        some (.ok n, out) →
      utf8Decode ((out ++ List.replicate (entry.uncompressed_size -
        out.length) 0).take n) = some s →
      s ≠ epubMime →
      validateMimetype entries limits M hdr data fuel =
        some (.error (.InvalidMimetype (wrongPre ++ s ++ [39]))) ∧
      ∃ x y, wrongPre ++ s ++ [39] = x ++ s ++ y) ∧
    (∀ entry n out, getEntry entries mimetypeName = some entry →
      (∀ l, limits = some l →
        entry.uncompressed_size ≤ l.max_mimetype_size) →
      readFile M limits entry hdr data entry.uncompressed_size fuel =
        some (.ok n, out) →
      utf8Decode ((out ++ List.replicate (entry.uncompressed_size -
        out.length) 0).take n) = none →
      validateMimetype entries limits M hdr data fuel =
        some (.error (.InvalidMimetype notUtf8Msg))) := by
  refine ⟨?abs, ?fwd, ?good, ?bad, ?inv⟩
  case abs =>
    intro hg
    constructor
    · unfold validateMimetype
      rw [hg]
    · exact ⟨[109, 105, 109, 101, 116, 121, 112, 101, 32, 102, 105, 108,
        101, 32], [32, 105, 110, 32, 97, 114, 99, 104, 105, 118, 101],
        by decide⟩
  case fwd =>
    intro h
    unfold validateMimetype at h
    cases hg : getEntry entries mimetypeName with
    | none => rw [hg] at h; exact absurd h (by simp)
    | some entry =>
      rw [hg] at h
      dsimp only at h
      split at h
      · exact absurd h (by simp)
      · split at h
        · exact absurd h (by simp)
        · exact absurd h (by simp)
        · rename_i n out hr
          split at h
          · exact absurd h (by simp)
          · rename_i s hu
            split at h
            · rename_i hs
              subst hs
              refine ⟨entry, n, out, rfl, hr, ?_⟩
              exact utf8Decode_ascii_inj _ epubMime hu (by decide)
            · exact absurd h (by simp)
  case good =>
    intro entry n out hg hl hr hc
    have hv : validateMimetype entries limits M hdr data fuel =
        some (.ok ()) := by
      unfold validateMimetype
      rw [hg]
      dsimp only
      cases limits with
      | none =>
        rw [if_neg (by simp)]
        rw [hr]
        dsimp only
        rw [hc, utf8Decode_ascii epubMime (by decide)]
        dsimp only
        rw [if_pos rfl]
      | some l =>
        rw [if_neg (by simp [Nat.not_lt.mpr (hl l rfl)])]
        rw [hr]
        dsimp only
        rw [hc, utf8Decode_ascii epubMime (by decide)]
        dsimp only
        rw [if_pos rfl]
    refine ⟨hv, ?_⟩
    unfold isValidEpub
    rw [hv]
  case bad =>
    intro entry n out s hg hl hr hu hs
    refine ⟨?_, wrongPre, [39], rfl⟩
    unfold validateMimetype
    rw [hg]
    dsimp only
    cases limits with
    | none =>
      rw [if_neg (by simp)]
      rw [hr]
      dsimp only
      rw [hu]
      dsimp only
      rw [if_neg hs]
    | some l =>
      rw [if_neg (by simp [Nat.not_lt.mpr (hl l rfl)])]
      rw [hr]
      dsimp only
      rw [hu]
      dsimp only
      rw [if_neg hs]
  case inv =>
    intro entry n out hg hl hr hu
    unfold validateMimetype
    rw [hg]
    dsimp only
    cases limits with
    | none =>
      rw [if_neg (by simp)]
      rw [hr]
      dsimp only
      rw [hu]
    | some l =>
      rw [if_neg (by simp [Nat.not_lt.mpr (hl l rfl)])]
      rw [hr]
      dsimp only
      rw [hu]

def exMC7 : InflateModel :=
  ⟨fun _ => 0, 0, [], fun i j h => Nat.le_refl 0, rfl, rfl⟩

def exEntryC7 : CdEntry :=
  { method := 0, compressed_size := 20, uncompressed_size := 20,
    local_header_offset := 0, crc32 := 0, filename := mimetypeName }

theorem c7_validate_mimetype_witness :
    (validateMimetype [exEntryC7] none exMC7 (.ok ()) epubMime 1 =
        some (.ok ()) ∧
      isValidEpub [exEntryC7] none exMC7 (.ok ()) epubMime 1 = some true) ∧
    validateMimetype [] none exMC7 (.ok ()) [] 1 =
      some (.error (.InvalidMimetype notFoundMsg)) :=
  ⟨(c7_validate_mimetype [exEntryC7] none exMC7 (.ok ()) epubMime 1).2.2.1
      exEntryC7 20 epubMime (by decide) (fun l hl => Option.noConfusion hl)
      (by decide) (by decide),
    ((c7_validate_mimetype [] none exMC7 (.ok ()) [] 1).1 (by decide)).1⟩

def exEntryC7x : CdEntry :=
  { method := 0, compressed_size := 1, uncompressed_size := 1,
    local_header_offset := 0, crc32 := 0, filename := mimetypeName }

/-- C7 counterexample to the original claim: a `mimetype` entry whose
content is the single byte `0xFF` (not valid UTF-8) makes
`validate_mimetype` return `InvalidMimetype` with the fixed
not-valid-UTF-8 message, and that message does not contain the actual
content. -/
theorem c7_counterexample :
    validateMimetype [exEntryC7x] none exMC7 (.ok ()) [255] 1 =
      some (.error (.InvalidMimetype notUtf8Msg)) ∧
    ∀ x y, notUtf8Msg ≠ x ++ [255] ++ y := by
  constructor
  · decide
  · intro x y h
    have h255 : (255 : Nat) ∈ notUtf8Msg := by
      rw [h]
      simp
    exact absurd h255 (by decide)

/-- Modelled from the spec: the render engine implementation is not under
`src/`, so the pagination API is modelled from the spec's words. An engine
determines, per chapter, a page count and the content of each page; all
spec'd entry points derive from these. -/
structure RenderEngineModel where
  pageCount : Nat → Nat
  pageAt : Nat → Nat → List Nat

/-- Modelled from the spec: eager `prepare_chapter(book, i)` renders every
page of the chapter in order. -/
def prepareChapter (E : RenderEngineModel) (chapter : Nat) :
    List (List Nat) :=
  (List.range (E.pageCount chapter)).map (E.pageAt chapter)

/-- Modelled from the spec: one step of the lazy
`prepare_chapter_iter(book, i)` iterator positioned at page `i`. -/
def iterNext (E : RenderEngineModel) (chapter i : Nat) :
    Option (List Nat) :=
  if i < E.pageCount chapter then some (E.pageAt chapter i) else none

/-- Collect the lazy iterator from position `i` (fuel-driven;
`prepareChapterIterCollect` supplies enough fuel). -/
def collectIter (E : RenderEngineModel) (chapter : Nat) :
    Nat → Nat → List (List Nat)
  | 0, _ => []
  | fuel + 1, i =>
    match iterNext E chapter i with
    | none => []
    | some p => p :: collectIter E chapter fuel (i + 1)

/-- Modelled from the spec: `prepare_chapter_iter(book, i).collect()`. -/
def prepareChapterIterCollect (E : RenderEngineModel) (chapter : Nat) :
    List (List Nat) :=
  collectIter E chapter (E.pageCount chapter) 0

/-- Modelled from the spec: `prepare_chapter_page_range(book, i, a, b)`
renders exactly the pages of the half-open range `[a, b)`. -/
def prepareChapterPageRange (E : RenderEngineModel) (chapter a b : Nat) :
    List (List Nat) :=
  (List.range (b - a)).map (fun k => E.pageAt chapter (a + k))

theorem collectIter_eq (E : RenderEngineModel) (chapter : Nat) :
    ∀ fuel i, E.pageCount chapter ≤ i + fuel →
      collectIter E chapter fuel i =
        (List.range (E.pageCount chapter - i)).map
          (fun k => E.pageAt chapter (i + k)) := by
  intro fuel
  induction fuel with
  | zero =>
    intro i h
    rw [collectIter, Nat.sub_eq_zero_of_le (by omega)]
    rfl
  | succ fuel ih =>
    intro i h
    rw [collectIter, iterNext]
    by_cases hi : i < E.pageCount chapter
    · rw [if_pos hi]
      dsimp only
      rw [ih (i + 1) (by omega)]
      have hm : E.pageCount chapter - i = (E.pageCount chapter - (i + 1)) + 1 := by
        omega
      rw [hm, List.range_succ_eq_map, List.map_cons, List.map_map]
      refine congrArg₂ _ (congrArg _ (Nat.add_zero i)) ?_
      refine List.map_congr_left (fun k hk => ?_)
      show E.pageAt chapter (i + 1 + k) = E.pageAt chapter (i + (k + 1))
      refine congrArg _ (by omega)
    · rw [if_neg hi]
      dsimp only
      rw [Nat.sub_eq_zero_of_le (by omega)]
      rfl

theorem range_map_slice (f : Nat → List Nat) (a b n : Nat)
    (h1 : a ≤ b) (h2 : b ≤ n) :
    (List.range (b - a)).map (fun k => f (a + k)) =
      (((List.range n).map f).drop a).take (b - a) := by
  refine List.ext_getElem ?_ ?_
  · simp only [List.length_map, List.length_range, List.length_take,
      List.length_drop]
    omega
  · intro i hi1 hi2
    simp only [List.length_map, List.length_range] at hi1
    simp only [List.getElem_map, List.getElem_range, List.getElem_take,
      List.getElem_drop]

/-- C8: for every chapter and engine the eager `prepare_chapter` equals the
collected lazy `prepare_chapter_iter`, and for every valid range
`[a, b)` within the chapter's page count, `prepare_chapter_page_range`
equals the slice `[a..b]` of the full eager result. -/
theorem c8_render_pagination (E : RenderEngineModel) (chapter a b : Nat) :
    prepareChapterIterCollect E chapter = prepareChapter E chapter ∧
    (a ≤ b → b ≤ E.pageCount chapter →
      prepareChapterPageRange E chapter a b =
        ((prepareChapter E chapter).drop a).take (b - a)) := by
  constructor
  · rw [prepareChapterIterCollect,
      collectIter_eq E chapter (E.pageCount chapter) 0 (by omega)]
    rw [prepareChapter, Nat.sub_zero]
    refine List.map_congr_left (fun k hk => ?_)
    exact congrArg _ (Nat.zero_add k)
  · intro h1 h2
    rw [prepareChapterPageRange, prepareChapter]
    exact range_map_slice (E.pageAt chapter) a b (E.pageCount chapter) h1 h2

def exEngineC8 : RenderEngineModel :=
  { pageCount := fun _ => 3, pageAt := fun c i => [c, i] }

theorem c8_render_pagination_witness :
    prepareChapterIterCollect exEngineC8 0 = prepareChapter exEngineC8 0 ∧
    prepareChapterPageRange exEngineC8 0 1 3 =
      ((prepareChapter exEngineC8 0).drop 1).take (3 - 1) :=
  ⟨(c8_render_pagination exEngineC8 0 1 3).1,
   (c8_render_pagination exEngineC8 0 1 3).2 (by decide) (by decide)⟩
